import Mathlib

set_option maxRecDepth 10000
set_option maxHeartbeats 1000000

/-!
Shallow embedding of the Dungeons&Diagram puzzle solver (src/ts/main.ts).
The grid is the 10×10 wall-bordered diagram; the solver is the recursive
backtracking procedure `dfs` together with its validity checks.  JavaScript
numbers are modelled as `Int`, arrays as lists, and the in-place mutation of
the diagram and projection counters as explicit state passing through
`SearchState`.  The recursion of `dfs` is driven by an explicit fuel
parameter; fuel exhaustion yields `false` with the state unchanged.
-/

namespace DD

/-- Tile values of the puzzle grid (main.ts, `enum TileType`). -/
inductive TileType where
  | EMPTY_SPACE
  | TREASURE
  | MONSTER
  | WALL
deriving DecidableEq, Repr

open TileType

/-- Grid coordinate (main.ts, `interface Coordinate`).  JavaScript numbers are
modelled as integers; coordinate arithmetic can transiently go negative before
being filtered by availability checks. -/
structure Coordinate where
  x : Int
  y : Int
deriving DecidableEq, Repr

/-- The diagram is a 10×10 matrix of tiles (`type Diagram`). -/
abbrev Diagram := List (List TileType)

def SIDE_LENGTH : Nat := 10

/-- Read `diagram[x][y]`.  Every access on an executed path of the source is in
bounds; out-of-range reads are mapped to `WALL` (in particular they are never
`EMPTY_SPACE`, matching the JavaScript `undefined` failing all tile-equality
tests against `EMPTY_SPACE` in reachable code, where out-of-range cells are
only ever compared against non-wall tile kinds after the border). -/
def getTile (d : Diagram) (x y : Int) : TileType :=
  if 0 ≤ x ∧ 0 ≤ y then (d.getD x.toNat []).getD y.toNat WALL else WALL

/-- Write `diagram[x][y] = v`.  Out-of-range writes never occur on executed
paths (placements are guarded); they are modelled as no-ops. -/
def setTile (x y : Int) (v : TileType) (d : Diagram) : Diagram :=
  if 0 ≤ x ∧ 0 ≤ y then d.set x.toNat ((d.getD x.toNat []).set y.toNat v) else d

/-- Increment `projection[i] += 1` (out-of-range indices never occur on
executed paths; modelled as no-ops). -/
def incProj (l : List Int) (i : Int) : List Int :=
  if 0 ≤ i then l.set i.toNat (l.getD i.toNat 0 + 1) else l

/-- Decrement `projection[i] -= 1`. -/
def decProj (l : List Int) (i : Int) : List Int :=
  if 0 ≤ i then l.set i.toNat (l.getD i.toNat 0 - 1) else l

/-- main.ts `getHashId`: the synthetic coordinate key `x*100 + y`. -/
def getHashId (x y : Int) : Int := x * 100 + y

/-- main.ts `isTilePlacable`.  The JavaScript `i in array` membership test on an
ordinary array succeeds exactly for integer indices `0 ≤ i < length`. -/
def isTilePlacable (row_i column_i : Int)
    (cur_row cur_col row_p col_p : List Int) : Bool :=
  if 0 ≤ row_i ∧ row_i < (cur_row.length : Int) ∧ row_i < (row_p.length : Int) ∧
     0 ≤ column_i ∧ column_i < (cur_col.length : Int) ∧ column_i < (col_p.length : Int) then
    (cur_row.getD row_i.toNat 0 + 1 ≤ row_p.getD row_i.toNat 0) &&
    (cur_col.getD column_i.toNat 0 + 1 ≤ col_p.getD column_i.toNat 0)
  else false

/-- main.ts `isSatisfiedProjections`: length test followed by the element-wise
comparison loops. -/
def isSatisfiedProjections (cur_row cur_col row_p col_p : List Int) : Bool :=
  if cur_row.length = row_p.length ∧ cur_col.length = col_p.length then
    ((cur_row.zip row_p).all fun p => p.1 == p.2) &&
    ((cur_col.zip col_p).all fun p => p.1 == p.2)
  else false

/-- main.ts `get4DirectionCoords`. -/
def get4DirectionCoords (x y : Int) : List Coordinate :=
  [⟨x, y - 1⟩, ⟨x + 1, y⟩, ⟨x, y + 1⟩, ⟨x - 1, y⟩]

/-- main.ts `getTRoomLTCoords`: the nine candidate top-left corners of a 3×3
room containing `(x, y)`. -/
def getTRoomLTCoords (x y : Int) : List Coordinate :=
  [⟨x - 2, y - 2⟩, ⟨x - 1, y - 2⟩, ⟨x, y - 2⟩,
   ⟨x - 2, y - 1⟩, ⟨x - 1, y - 1⟩, ⟨x, y - 1⟩,
   ⟨x - 2, y⟩, ⟨x - 1, y⟩, ⟨x, y⟩]

/-- main.ts `getTRoomTileCoords`: the nine interior tiles of the 3×3 room with
top-left corner `(x, y)`. -/
def getTRoomTileCoords (x y : Int) : List Coordinate :=
  [⟨x, y⟩, ⟨x + 1, y⟩, ⟨x + 2, y⟩,
   ⟨x, y + 1⟩, ⟨x + 1, y + 1⟩, ⟨x + 2, y + 1⟩,
   ⟨x, y + 2⟩, ⟨x + 1, y + 2⟩, ⟨x + 2, y + 2⟩]

/-- main.ts `getTRoomOuterTileCoords`: the twelve perimeter-ring tiles around
the 3×3 room with top-left corner `(x, y)`. -/
def getTRoomOuterTileCoords (x y : Int) : List Coordinate :=
  [⟨x, y - 1⟩, ⟨x + 1, y - 1⟩, ⟨x + 2, y - 1⟩,
   ⟨x + 3, y⟩, ⟨x + 3, y + 1⟩, ⟨x + 3, y + 2⟩,
   ⟨x, y + 3⟩, ⟨x + 1, y + 3⟩, ⟨x + 2, y + 3⟩,
   ⟨x - 1, y⟩, ⟨x - 1, y + 1⟩, ⟨x - 1, y + 2⟩]

/-- main.ts `get4TilesSpaces`: the four corner triples around `(x, y)`. -/
def get4TilesSpaces (x y : Int) : List (List Coordinate) :=
  [[⟨x - 1, y - 1⟩, ⟨x, y - 1⟩, ⟨x - 1, y⟩],
   [⟨x, y - 1⟩, ⟨x + 1, y - 1⟩, ⟨x + 1, y⟩],
   [⟨x + 1, y⟩, ⟨x + 1, y + 1⟩, ⟨x, y + 1⟩],
   [⟨x, y + 1⟩, ⟨x - 1, y + 1⟩, ⟨x - 1, y⟩]]

/-- main.ts `isContainedByTRoom`: `(x, y)` lies in some recorded 3×3 room. -/
def isContainedByTRoom (x y : Int) (treasure_room_lt_coords : List Coordinate) : Bool :=
  treasure_room_lt_coords.any fun lt =>
    decide (lt.x ≤ x ∧ x < lt.x + 3 ∧ lt.y ≤ y ∧ y < lt.y + 3)

/-- main.ts `isTRoomLTCoordAvailable`: the room lies fully inside the
non-border 8×8 play area. -/
def isTRoomLTCoordAvailable (x y : Int) : Bool :=
  decide (1 ≤ x ∧ x < (SIDE_LENGTH : Int) - 2 ∧ 1 ≤ y ∧ y < (SIDE_LENGTH : Int) - 2)

/-- main.ts `isTRoomTilesAvailable`: the nine interior tiles hold exactly eight
empty spaces and one treasure. -/
def isTRoomTilesAvailable (x y : Int) (d : Diagram) : Bool :=
  ((getTRoomTileCoords x y).countP fun c => getTile d c.x c.y == EMPTY_SPACE) == 8 &&
  ((getTRoomTileCoords x y).countP fun c => getTile d c.x c.y == TREASURE) == 1

/-- main.ts `isTRoomWallsAvailable`: the perimeter ring holds exactly eleven
walls (the source compares the count with 11, leaving one opening). -/
def isTRoomWallsAvailable (x y : Int) (d : Diagram) : Bool :=
  ((getTRoomOuterTileCoords x y).countP fun c => getTile d c.x c.y == WALL) == 11

/-- main.ts `isDeadEnds`: exactly three of the four cardinal neighbours are
walls. -/
def isDeadEnds (x y : Int) (d : Diagram) : Bool :=
  ((get4DirectionCoords x y).countP fun c => getTile d c.x c.y == WALL) == 3

/-- The interior scan order used by the source loops
`for x = 1..SIDE_LENGTH-2, for y = 1..SIDE_LENGTH-2`. -/
def interiorCoords : List Coordinate :=
  ((List.range 8).map fun i =>
    (List.range 8).map fun j =>
      (⟨Int.ofNat i + 1, Int.ofNat j + 1⟩ : Coordinate)).flatten

/-- Breadth-first flood fill over empty-space edges
(main.ts `checkEmptySpacesConnectivity`, inner `bfs`).  The colour set is the
`Dictionary` keyed by hash id; only membership is ever read.  The fuel bounds
the number of loop iterations and is ample for every reachable queue. -/
def bfsEmpty (d : Diagram) : Nat → List Coordinate → List (Int × Nat) → Nat → List (Int × Nat)
  | 0, _, cs, _ => cs
  | _ + 1, [], cs, _ => cs
  | fuel + 1, c :: queue, cs, sign =>
    if cs.any fun p => p.1 == getHashId c.x c.y then
      bfsEmpty d fuel queue cs sign
    else
      let cs' := cs ++ [(getHashId c.x c.y, sign)]
      let nbrs := (get4DirectionCoords c.x c.y).filter fun q =>
        getTile d q.x q.y == EMPTY_SPACE &&
        !(cs'.any fun p => p.1 == getHashId q.x q.y)
      bfsEmpty d fuel (queue ++ nbrs) cs' sign

/-- The seed loop of main.ts `checkEmptySpacesConnectivity`. -/
def cescGo (d : Diagram) : List Coordinate → List (Int × Nat) → Nat → Bool
  | [], _, _ => true
  | c :: rest, cs, sc =>
    if getTile d c.x c.y == EMPTY_SPACE then
      if cs.any fun p => p.1 == getHashId c.x c.y then
        if sc ≤ 1 then cescGo d rest cs sc else false
      else if sc ≠ 0 then false
      else cescGo d rest (bfsEmpty d 1000 [c] cs (sc + 1)) (sc + 1)
    else cescGo d rest cs sc

/-- main.ts `checkEmptySpacesConnectivity`. -/
def checkEmptySpacesConnectivity (d : Diagram) : Bool :=
  cescGo d interiorCoords [] 0

/-- Breadth-first flood fill over non-wall edges
(main.ts `checkTreasuresAndMonstersConnectivity`, inner `bfs`). -/
def bfsNonWall (d : Diagram) : Nat → List Coordinate → List (Int × Nat) → Nat → List (Int × Nat)
  | 0, _, cs, _ => cs
  | _ + 1, [], cs, _ => cs
  | fuel + 1, c :: queue, cs, sign =>
    if cs.any fun p => p.1 == getHashId c.x c.y then
      bfsNonWall d fuel queue cs sign
    else
      let cs' := cs ++ [(getHashId c.x c.y, sign)]
      let nbrs := (get4DirectionCoords c.x c.y).filter fun q =>
        !(getTile d q.x q.y == WALL) &&
        !(cs'.any fun p => p.1 == getHashId q.x q.y)
      bfsNonWall d fuel (queue ++ nbrs) cs' sign

/-- The seed loop of main.ts `checkTreasuresAndMonstersConnectivity`. -/
def ctmcGo (d : Diagram) : List Coordinate → List (Int × Nat) → Nat → Bool
  | [], _, _ => true
  | c :: rest, cs, sc =>
    if !(getTile d c.x c.y == WALL) then
      if cs.any fun p => p.1 == getHashId c.x c.y then
        if sc ≤ 1 then ctmcGo d rest cs sc else false
      else if sc ≠ 0 then false
      else ctmcGo d rest (bfsNonWall d 1000 [c] cs (sc + 1)) (sc + 1)
    else ctmcGo d rest cs sc

/-- main.ts `checkTreasuresAndMonstersConnectivity`: all fixed treasure and
monster tiles lie in a single non-wall component. -/
def checkTreasuresAndMonstersConnectivity
    (treasure_coords monster_coords : List Coordinate) (d : Diagram) : Bool :=
  ctmcGo d (treasure_coords ++ monster_coords) [] 0

/-- main.ts `checkMonsters`: every monster tile is a dead end. -/
def checkMonsters (monster_coords : List Coordinate) (d : Diagram) : Bool :=
  monster_coords.all fun c =>
    !(getTile d c.x c.y == MONSTER && !(isDeadEnds c.x c.y d))

/-- The first satisfying room top-left corner for a treasure at `(x, y)`
(the inner candidate loop of main.ts `checkTreasureRooms`). -/
def findTRoomLT (x y : Int) (d : Diagram) : Option Coordinate :=
  (getTRoomLTCoords x y).find? fun lt =>
    isTRoomLTCoordAvailable lt.x lt.y &&
    isTRoomTilesAvailable lt.x lt.y d &&
    isTRoomWallsAvailable lt.x lt.y d

/-- The outer loop of main.ts `checkTreasureRooms`, accumulating the committed
room corners and aborting with `(false, [])` at the first unsatisfiable
treasure. -/
def ctrGo (d : Diagram) : List Coordinate → List Coordinate → Bool × List Coordinate
  | [], acc => (true, acc)
  | c :: rest, acc =>
    if getTile d c.x c.y == TREASURE then
      match findTRoomLT c.x c.y d with
      | some lt => ctrGo d rest (acc ++ [lt])
      | none => (false, [])
    else ctrGo d rest acc

/-- main.ts `checkTreasureRooms`. -/
def checkTreasureRooms (treasure_coords : List Coordinate) (d : Diagram) :
    Bool × List Coordinate :=
  ctrGo d treasure_coords []

/-- JavaScript truthiness of the tuple returned by `checkTreasureRooms`: at
main.ts lines 854 and 881 the tuple itself (a JavaScript array, which is
always truthy) is used as the condition instead of its boolean first
component, so the condition always evaluates to `true`. -/
def isTruthyArray (_ : Bool × List Coordinate) : Bool := true

/-- Inner function `checkMonstersAndDeadEnds` of main.ts `isSolved`: every
monster coordinate is a dead end, and no empty interior tile is one. -/
def checkMonstersAndDeadEnds (monster_coords : List Coordinate) (d : Diagram) : Bool :=
  (monster_coords.all fun c => isDeadEnds c.x c.y d) &&
  (interiorCoords.all fun c =>
    !(getTile d c.x c.y == EMPTY_SPACE && isDeadEnds c.x c.y d))

/-- Inner function `checkHallways` of main.ts `isSolved`: no empty non-room
interior tile may have a corner triple whose three tiles are all empty and
outside every room. -/
def checkHallways (treasure_room_lt_coords : List Coordinate) (d : Diagram) : Bool :=
  interiorCoords.all fun c =>
    !(getTile d c.x c.y == EMPTY_SPACE &&
      !(isContainedByTRoom c.x c.y treasure_room_lt_coords) &&
      (((get4TilesSpaces c.x c.y).map fun space =>
          if 3 ≤ (space.map fun q =>
              if getTile d q.x q.y == EMPTY_SPACE &&
                 !(isContainedByTRoom q.x q.y treasure_room_lt_coords)
              then (1 : Nat) else 0).sum
          then (1 : Nat) else 0).sum > 0))

/-- main.ts `isSolved`: the full solution validation run when the current
projections equal the targets. -/
def isSolved (treasure_coords monster_coords : List Coordinate) (d : Diagram) : Bool :=
  if !(checkEmptySpacesConnectivity d) then false
  else
    let res := checkTreasureRooms treasure_coords d
    if !res.1 then false
    else if !(checkMonstersAndDeadEnds monster_coords d) then false
    else if !(checkHallways res.2 d) then false
    else true

/-- Inner function `recursiveSelect` of main.ts `getCombinations`, its
recursion realised on the structurally decreasing count `n - step` of
remaining steps: depth-first, include-the-current-index branch first, then
the skip branch guarded by the reachability pruning test. -/
def recursiveSelectGo (m n : Nat) : Nat → Nat → List Nat → List (List Nat)
  | fuel, step, cur =>
    if cur.length = m then [cur]
    else if n ≤ step then []
    else
      match fuel with
      | 0 => []
      | fuel + 1 =>
        recursiveSelectGo m n fuel (step + 1) (cur ++ [step]) ++
        (if m ≤ cur.length + (n - 1 - step) then recursiveSelectGo m n fuel (step + 1) cur
         else [])

/-- Inner function `recursiveSelect` of main.ts `getCombinations`; when
`step < n` the remaining-step count is positive, so `recursiveSelectGo` never
hits its fuel floor and this equals the source recursion
(`recursiveSelect_unfold`). -/
def recursiveSelect (m n step : Nat) (cur : List Nat) : List (List Nat) :=
  recursiveSelectGo m n (n - step) step cur

/-- main.ts `getCombinations`. -/
def getCombinations (m n : Nat) : List (List Nat) :=
  if n < m then [] else recursiveSelect m n 0 []

/-- Modelled from the spec (section 4.5): the same depth-first,
include-first/skip-second enumeration described in words by the specification,
without the skip-branch pruning (a pruned skip branch can contribute no subset
of size `m`, so the enumerated list is the same). -/
def specSelect (m n : Nat) : Nat → List Nat → List (List Nat)
  | step, cur =>
    if cur.length = m then [cur]
    else if n ≤ step then []
    else
      specSelect m n (step + 1) (cur ++ [step]) ++ specSelect m n (step + 1) cur
termination_by step _ => n - step
decreasing_by all_goals omega

/-- Modelled from the spec (section 4.5): the combination list the
specification describes, to be compared with `getCombinations`. -/
def specCombinations (m n : Nat) : List (List Nat) :=
  if n < m then [] else specSelect m n 0 []

/-- The mutable solver state: the diagram, the two current-projection
counters, the handled treasure/monster id lists and the committed room
corners, all owned by the `dfs` call chain. -/
structure SearchState where
  diagram : Diagram
  curRow : List Int
  curCol : List Int
  handledT : List Int
  handledM : List Int
  roomLTs : List Coordinate
deriving DecidableEq, Repr

/-- The immutable inputs of a solve: the target projections and the fixed
treasure/monster coordinate lists. -/
structure Params where
  rowProj : List Int
  colProj : List Int
  treasures : List Coordinate
  monsters : List Coordinate
deriving DecidableEq, Repr

/-- The tentative commit of a wall
(`diagram[x][y] = WALL; cur_row[x-1] += 1; cur_col[y-1] += 1`). -/
def placeWall (c : Coordinate) (s : SearchState) : SearchState :=
  { s with diagram := setTile c.x c.y WALL s.diagram,
           curRow := incProj s.curRow (c.x - 1),
           curCol := incProj s.curCol (c.y - 1) }

/-- The undo of a tentative wall
(`diagram[x][y] = EMPTY_SPACE; cur_row[x-1] -= 1; cur_col[y-1] -= 1`). -/
def unplaceWall (c : Coordinate) (s : SearchState) : SearchState :=
  { s with diagram := setTile c.x c.y EMPTY_SPACE s.diagram,
           curRow := decProj s.curRow (c.x - 1),
           curCol := decProj s.curCol (c.y - 1) }

/-- The undo loops of main.ts `dfs` (lines 713 and 803): revert the placed
coordinates in the order they were pushed. -/
def undoPlaced : List Coordinate → SearchState → SearchState
  | [], s => s
  | c :: rest, s => undoPlaced rest (unplaceWall c s)

/-- The inner `j` loop of the treasure and monster phases: place a wall on
every listed tile except the `i`-th, stopping at the first tile that is not
projection-legal (the `break`); returns the placed coordinates in push
order. -/
def placeAllButOne (p : Params) : List Coordinate → Nat → Nat → SearchState →
    List Coordinate × SearchState
  | [], _, _, s => ([], s)
  | c :: rest, j, i, s =>
    if j = i then placeAllButOne p rest (j + 1) i s
    else if isTilePlacable (c.x - 1) (c.y - 1) s.curRow s.curCol p.rowProj p.colProj then
      let s' := placeWall c s
      let r := placeAllButOne p rest (j + 1) i s'
      (c :: r.1, r.2)
    else ([], s)

/-- Early-exit outcome of one loop level of `dfs`: `success`/`failure` model a
`return true`/`return false` of the whole call, `fallthrough` models control
continuing past the construct. -/
inductive PhaseOutcome where
  | success (s : SearchState)
  | failure (s : SearchState)
  | fallthrough (sat : Bool) (s : SearchState)
deriving DecidableEq, Repr

/-- The `i` loop of the treasure phase (main.ts lines 675–723): try each
choice of the one perimeter tile left empty, recursing on full placements that
keep treasures and monsters connected, undoing on return. -/
def tryTreasureAssign (p : Params) (rec : SearchState → Bool × SearchState)
    (hash : Int) (lt : Coordinate) (escoords : List Coordinate) :
    List Nat → Bool → SearchState → PhaseOutcome
  | [], sat, s => .fallthrough sat s
  | i :: is, sat, s =>
    let pr := placeAllButOne p escoords 0 i s
    if pr.1.length = escoords.length - 1 &&
       checkTreasuresAndMonstersConnectivity p.treasures p.monsters pr.2.diagram then
      let s2 := { pr.2 with handledT := pr.2.handledT ++ [hash],
                            roomLTs := pr.2.roomLTs ++ [lt] }
      match rec s2 with
      | (true, s3) => .success s3
      | (false, s3) =>
        let s4 := { s3 with handledT := s3.handledT.dropLast,
                            roomLTs := s3.roomLTs.dropLast }
        tryTreasureAssign p rec hash lt escoords is true (undoPlaced pr.1 s4)
    else
      tryTreasureAssign p rec hash lt escoords is sat (undoPlaced pr.1 pr.2)

/-- The labelled room-candidate loop of the treasure phase (main.ts lines
652–725). -/
def tryTreasureRooms (p : Params) (rec : SearchState → Bool × SearchState)
    (hash : Int) : List Coordinate → Bool → SearchState → PhaseOutcome
  | [], sat, s => .fallthrough sat s
  | lt :: lts, sat, s =>
    if !(isTRoomLTCoordAvailable lt.x lt.y) then
      tryTreasureRooms p rec hash lts sat s
    else if !(isTRoomTilesAvailable lt.x lt.y s.diagram) then
      tryTreasureRooms p rec hash lts sat s
    else
      let outer := getTRoomOuterTileCoords lt.x lt.y
      let escoords := outer.filter fun c => getTile s.diagram c.x c.y == EMPTY_SPACE
      if outer.any fun c =>
          !(getTile s.diagram c.x c.y == WALL) &&
          !(getTile s.diagram c.x c.y == EMPTY_SPACE) then
        tryTreasureRooms p rec hash lts sat s
      else if escoords.length < 1 then .failure s
      else
        match tryTreasureAssign p rec hash lt escoords
            (List.range escoords.length) sat s with
        | .success sF => .success sF
        | .failure sF => .failure sF
        | .fallthrough sat' s' => tryTreasureRooms p rec hash lts sat' s'

/-- The treasure enumeration loop of `dfs` (main.ts lines 640–730):
`.fallthrough` means the loop ran to completion and control continues. -/
def treasurePhase (p : Params) (rec : SearchState → Bool × SearchState) :
    List Coordinate → SearchState → PhaseOutcome
  | [], s => .fallthrough false s
  | c :: rest, s =>
    if !(getTile s.diagram c.x c.y == TREASURE &&
         !(s.handledT.contains (getHashId c.x c.y))) then
      treasurePhase p rec rest s
    else
      match tryTreasureRooms p rec (getHashId c.x c.y)
          (getTRoomLTCoords c.x c.y) false s with
      | .success sF => .success sF
      | .failure sF => .failure sF
      | .fallthrough sat s' =>
        if sat then treasurePhase p rec rest s' else .failure s'

/-- The neighbour scan of the monster phase (main.ts lines 752–761): count the
wall neighbours, aborting with `none` (the `return false`) on a neighbour that
is neither empty nor wall. -/
def countMonsterWalls (d : Diagram) : List Coordinate → Option Nat
  | [] => some 0
  | c :: rest =>
    match getTile d c.x c.y with
    | EMPTY_SPACE => countMonsterWalls d rest
    | WALL => (countMonsterWalls d rest).map (· + 1)
    | _ => none

/-- The `i` loop of the monster phase (main.ts lines 767–813). -/
def tryMonsterAssign (p : Params) (rec : SearchState → Bool × SearchState)
    (hash : Int) (escoords : List Coordinate) :
    List Nat → Bool → SearchState → PhaseOutcome
  | [], sat, s => .fallthrough sat s
  | i :: is, sat, s =>
    let pr := placeAllButOne p escoords 0 i s
    if pr.1.length = escoords.length - 1 &&
       checkTreasuresAndMonstersConnectivity p.treasures p.monsters pr.2.diagram then
      let s2 := { pr.2 with handledM := pr.2.handledM ++ [hash] }
      match rec s2 with
      | (true, s3) => .success s3
      | (false, s3) =>
        let s4 := { s3 with handledM := s3.handledM.dropLast }
        tryMonsterAssign p rec hash escoords is true (undoPlaced pr.1 s4)
    else
      tryMonsterAssign p rec hash escoords is sat (undoPlaced pr.1 pr.2)

/-- The monster enumeration loop of `dfs` (main.ts lines 737–819). -/
def monsterPhase (p : Params) (rec : SearchState → Bool × SearchState) :
    List Coordinate → SearchState → PhaseOutcome
  | [], s => .fallthrough false s
  | c :: rest, s =>
    if !(getTile s.diagram c.x c.y == MONSTER &&
         !(s.handledM.contains (getHashId c.x c.y))) then
      monsterPhase p rec rest s
    else
      let outer := get4DirectionCoords c.x c.y
      let escoords := outer.filter fun q => getTile s.diagram q.x q.y == EMPTY_SPACE
      match countMonsterWalls s.diagram outer with
      | none => .failure s
      | some nwalls =>
        if 4 ≤ nwalls then .failure s
        else
          match tryMonsterAssign p rec (getHashId c.x c.y) escoords
              (List.range escoords.length) false s with
          | .success sF => .success sF
          | .failure sF => .failure sF
          | .fallthrough sat s' =>
            if sat then monsterPhase p rec rest s' else .failure s'

/-- The candidate scan of the deficit phase (main.ts lines 835–863): for each
column of the deficient row, tentatively place the wall, evaluate the three
pre-checks (the first of which, `checkTreasureRooms`, is used through its
always-truthy tuple), then revert the placement. -/
def deficitScan (p : Params) (row_i : Nat) :
    List Nat → SearchState → List Coordinate × SearchState
  | [], s => ([], s)
  | ci :: rest, s =>
    if p.colProj.getD ci 0 ≤ s.curCol.getD ci 0 then
      deficitScan p row_i rest s
    else
      let x : Int := (row_i : Int) + 1
      let y : Int := (ci : Int) + 1
      if !(getTile s.diagram x y == EMPTY_SPACE &&
           !(isContainedByTRoom x y s.roomLTs) &&
           isTilePlacable (row_i : Int) (ci : Int) s.curRow s.curCol p.rowProj p.colProj) then
        deficitScan p row_i rest s
      else
        let s1 := placeWall ⟨x, y⟩ s
        let keep := isTruthyArray (checkTreasureRooms p.treasures s1.diagram) &&
          checkMonsters p.monsters s1.diagram &&
          checkTreasuresAndMonstersConnectivity p.treasures p.monsters s1.diagram
        let s2 := unplaceWall ⟨x, y⟩ s1
        let r := deficitScan p row_i rest s2
        ((if keep then [(⟨x, y⟩ : Coordinate)] else []) ++ r.1, r.2)

/-- Commit one combination of candidate tiles (main.ts lines 872–879). -/
def placeCombo (avail : List Coordinate) : List Nat → SearchState → SearchState
  | [], s => s
  | i :: is, s => placeCombo avail is (placeWall (avail.getD i ⟨0, 0⟩) s)

/-- The combination loop of the deficit phase (main.ts lines 871–902); the
`checkTreasureRooms` conjunct is again the always-truthy tuple. -/
def tryCombos (p : Params) (rec : SearchState → Bool × SearchState)
    (avail : List Coordinate) : List (List Nat) → Bool → SearchState → PhaseOutcome
  | [], sat, s => .fallthrough sat s
  | combo :: rest, sat, s =>
    let s1 := placeCombo avail combo s
    if isTruthyArray (checkTreasureRooms p.treasures s1.diagram) &&
       checkMonsters p.monsters s1.diagram &&
       checkTreasuresAndMonstersConnectivity p.treasures p.monsters s1.diagram then
      match rec s1 with
      | (true, sF) => .success sF
      | (false, s2) =>
        tryCombos p rec avail rest true (undoPlaced (combo.map fun i => avail.getD i ⟨0, 0⟩) s2)
    else
      tryCombos p rec avail rest sat (undoPlaced (combo.map fun i => avail.getD i ⟨0, 0⟩) s1)

/-- The row loop of the deficit phase (main.ts lines 826–907); returning
`(false, s)` at the end models the final `return false` of `dfs`. -/
def deficitPhase (p : Params) (rec : SearchState → Bool × SearchState) :
    List Nat → SearchState → Bool × SearchState
  | [], s => (false, s)
  | ri :: rest, s =>
    let difference : Int := p.rowProj.getD ri 0 - s.curRow.getD ri 0
    if difference ≤ 0 then deficitPhase p rec rest s
    else
      let sc := deficitScan p ri (List.range s.curCol.length) s
      if (sc.1.length : Int) < difference then (false, sc.2)
      else
        match tryCombos p rec sc.1
            (getCombinations difference.toNat sc.1.length) false sc.2 with
        | .success sF => (true, sF)
        | .failure sF => (false, sF)
        | .fallthrough sat s' =>
          if sat then deficitPhase p rec rest s' else (false, s')

/-- main.ts `dfs`, with an explicit fuel driving the recursion: fuel
exhaustion returns `false` with the state unchanged.  The `step` argument of
the source is carried but never read, as in the source. -/
def dfs (p : Params) : Nat → Nat → SearchState → Bool × SearchState
  | 0, _, s => (false, s)
  | fuel + 1, step, s =>
    if isSatisfiedProjections s.curRow s.curCol p.rowProj p.colProj then
      (isSolved p.treasures p.monsters s.diagram, s)
    else
      match treasurePhase p (dfs p fuel (step + 1)) p.treasures s with
      | .success sF => (true, sF)
      | .failure sF => (false, sF)
      | .fallthrough _ s1 =>
        if s1.handledT.length ≠ p.treasures.length then (false, s1)
        else
          match monsterPhase p (dfs p fuel (step + 1)) p.monsters s1 with
          | .success sF => (true, sF)
          | .failure sF => (false, sF)
          | .fallthrough _ s2 =>
            if s2.handledM.length ≠ p.monsters.length then (false, s2)
            else deficitPhase p (dfs p fuel (step + 1)) (List.range s2.curRow.length) s2

/-- main.ts `augmentRawDiagram`: pad the 8×8 input map with a one-tile wall
border (the source copies the 8×8 `raw_diagram` into the interior of an
all-wall 10×10 matrix). -/
def augmentRawDiagram (raw : List (List TileType)) : Diagram :=
  (List.range 10).map fun x =>
    (List.range 10).map fun y =>
      if 1 ≤ x ∧ x ≤ 8 ∧ 1 ≤ y ∧ y ≤ 8 then
        (raw.getD (x - 1) []).getD (y - 1) EMPTY_SPACE
      else WALL

/-- main.ts `getTreasureAndMonsterCoords`: the fixed tile lists collected in
row-major interior scan order. -/
def getTreasureAndMonsterCoords (d : Diagram) : List Coordinate × List Coordinate :=
  (interiorCoords.filter fun c => getTile d c.x c.y == TREASURE,
   interiorCoords.filter fun c => getTile d c.x c.y == MONSTER)

/-- The solver state built by the main entry (main.ts lines 956–966): the
augmented diagram and all-zero current projections, regardless of any walls
already present in the input map. -/
def initialState (raw : List (List TileType)) : SearchState :=
  { diagram := augmentRawDiagram raw,
    curRow := List.replicate 8 0,
    curCol := List.replicate 8 0,
    handledT := [],
    handledM := [],
    roomLTs := [] }

/-- The solve parameters built by the main entry. -/
def mkParams (rowP colP : List Int) (raw : List (List TileType)) : Params :=
  { rowProj := rowP,
    colProj := colP,
    treasures := (getTreasureAndMonsterCoords (augmentRawDiagram raw)).1,
    monsters := (getTreasureAndMonsterCoords (augmentRawDiagram raw)).2 }

/-- Count of wall tiles of row `i` (0-based) of the non-border 8×8 region. -/
def rowWalls (d : Diagram) (i : Nat) : Nat :=
  (List.range 8).countP fun j : Nat => getTile d ((i : Int) + 1) ((j : Int) + 1) == WALL

/-- Count of wall tiles of column `i` (0-based) of the non-border 8×8
region. -/
def colWalls (d : Diagram) (i : Nat) : Nat :=
  (List.range 8).countP fun j : Nat => getTile d ((j : Int) + 1) ((i : Int) + 1) == WALL

/-- Sequential composition of wall commits, used to reason about the placement
loops: `placeAllButOne` and `placeCombo` each realise `placeSeq` over the list
of coordinates they actually commit. -/
def placeSeq : List Coordinate → SearchState → SearchState
  | [], s => s
  | c :: cs, s => placeSeq cs (placeWall c s)

/-- Dimension well-formedness of a solver state: length-8 counters and a 10×10
diagram, as established by the main entry and preserved by every mutation. -/
abbrev WFState (s : SearchState) : Prop :=
  s.curRow.length = 8 ∧ s.curCol.length = 8 ∧ s.diagram.length = 10 ∧
  ∀ row ∈ s.diagram, row.length = 10

/-- The per-row and per-column difference between the wall count of the
non-border region and the current-projection counter is the same in both
states: counters drift from the true wall counts only by the initial
contribution of the input grid. -/
def DiffPres (s s' : SearchState) : Prop :=
  (∀ i < 8, (rowWalls s'.diagram i : Int) - s'.curRow.getD i 0 =
    (rowWalls s.diagram i : Int) - s.curRow.getD i 0) ∧
  (∀ i < 8, (colWalls s'.diagram i : Int) - s'.curCol.getD i 0 =
    (colWalls s.diagram i : Int) - s.curCol.getD i 0)

/-! Concrete inputs used to instantiate the claims. -/

/-- The all-empty 8×8 input map. -/
def rawAllEmpty : List (List TileType) := List.replicate 8 (List.replicate 8 EMPTY_SPACE)

/-- Parameters of the all-zero-projection puzzle on the all-empty map. -/
def pZero : Params := mkParams (List.replicate 8 0) (List.replicate 8 0) rawAllEmpty

/-- Initial solver state of the all-zero-projection puzzle. -/
def sZero : SearchState := initialState rawAllEmpty

/-- Input map that is all walls except two cardinally adjacent monsters at
interior coordinates (1,1) and (2,1). -/
def rawMonsterPocket : List (List TileType) :=
  (List.range 8).map fun i => (List.range 8).map fun j =>
    if (i = 0 ∧ j = 0) ∨ (i = 1 ∧ j = 0) then MONSTER else WALL

/-- Parameters of the all-zero-projection puzzle on the monster-pocket map. -/
def pMonsterPocket : Params :=
  mkParams (List.replicate 8 0) (List.replicate 8 0) rawMonsterPocket

/-- Initial solver state of the monster-pocket puzzle. -/
def sMonsterPocket : SearchState := initialState rawMonsterPocket

/-- Input map that is all walls except two empty cells at interior coordinates
(1,1) and (1,2). -/
def rawTwoCells : List (List TileType) :=
  (List.range 8).map fun i => (List.range 8).map fun j =>
    if (i = 0 ∧ j = 0) ∨ (i = 0 ∧ j = 1) then EMPTY_SPACE else WALL

/-- Parameters asking for one wall in row 0 and one in column 1 on the
two-cell map: solvable by walling (1,2). -/
def pTwoCells : Params :=
  mkParams [1, 0, 0, 0, 0, 0, 0, 0] [0, 1, 0, 0, 0, 0, 0, 0] rawTwoCells

/-- Initial solver state of the two-cell puzzle. -/
def sTwoCells : SearchState := initialState rawTwoCells

/-- Parameters with mismatching projection sums on the two-cell map:
unsolvable, the deficit phase finds no candidate. -/
def pTwoCellsUnsat : Params :=
  mkParams [1, 0, 0, 0, 0, 0, 0, 0] (List.replicate 8 0) rawTwoCells

/-- Input map holding a treasure at interior coordinate (2,2) whose 3×3 room
with top-left (1,1) has exactly eleven perimeter walls: the ring tiles
(4,1), (4,2), (4,3), (1,4), (2,4) are walls, the door (3,4) is empty, and the
remaining six ring tiles are border walls. -/
def rawRoomDoor : List (List TileType) :=
  (List.range 8).map fun i => (List.range 8).map fun j =>
    if i = 1 ∧ j = 1 then TREASURE
    else if (i = 3 ∧ j = 0) ∨ (i = 3 ∧ j = 1) ∨ (i = 3 ∧ j = 2) ∨
            (i = 0 ∧ j = 3) ∨ (i = 1 ∧ j = 3) then WALL
    else EMPTY_SPACE

/-- The augmented room-with-door diagram. -/
def dRoomDoor : Diagram := augmentRawDiagram rawRoomDoor

/-- Deficit-phase parameters for the room-with-door grid: row 2 and column 3
still require walls. -/
def pRoomScan : Params :=
  { rowProj := [0, 0, 8, 0, 0, 0, 0, 0], colProj := [0, 0, 0, 8, 0, 0, 0, 0],
    treasures := [⟨2, 2⟩], monsters := [] }

/-- A deficit-phase state for the room-with-door grid: the treasure is handled
and its room with top-left (1,1) is committed. -/
def sRoomScan : SearchState :=
  { diagram := dRoomDoor, curRow := List.replicate 8 0, curCol := List.replicate 8 0,
    handledT := [getHashId 2 2], handledM := [], roomLTs := [⟨1, 1⟩] }

/-- Input map with two cardinally adjacent monsters at interior coordinates
(1,1) and (2,1) on an otherwise empty map. -/
def rawAdjacentMonsters : List (List TileType) :=
  (List.range 8).map fun i => (List.range 8).map fun j =>
    if (i = 0 ∧ j = 0) ∨ (i = 1 ∧ j = 0) then MONSTER else EMPTY_SPACE

/-- Parameters with an unsatisfied row projection on the adjacent-monster
map. -/
def pAdjacentMonsters : Params :=
  mkParams [5, 0, 0, 0, 0, 0, 0, 0] (List.replicate 8 0) rawAdjacentMonsters

/-- Initial solver state of the adjacent-monster puzzle. -/
def sAdjacentMonsters : SearchState := initialState rawAdjacentMonsters

/-- Input map whose only non-empty cell is a wall at interior coordinate
(1,1). -/
def rawOneWall : List (List TileType) :=
  (List.range 8).map fun i => (List.range 8).map fun j =>
    if i = 0 ∧ j = 0 then WALL else EMPTY_SPACE

end DD

namespace DD

open TileType

/-! Basic lemmas about list updates and the tile/projection accessors. -/

theorem set_getD_self {α : Type} (l : List α) (i : Nat) (d : α) :
    l.set i (l.getD i d) = l := by
  induction l generalizing i with
  | nil => simp
  | cons a t ih =>
    cases i with
    | zero => simp
    | succ n => simpa using ih n

theorem getD_set_self {α : Type} (l : List α) (i : Nat) (a d : α) (h : i < l.length) :
    (l.set i a).getD i d = a := by
  simp [List.getD_eq_getElem?_getD, List.getElem?_set_self h]

theorem getD_set_ne {α : Type} (l : List α) (i j : Nat) (a d : α) (h : i ≠ j) :
    (l.set i a).getD j d = l.getD j d := by
  simp [List.getD_eq_getElem?_getD, List.getElem?_set_ne h]

theorem length_incProj (l : List Int) (i : Int) : (incProj l i).length = l.length := by
  unfold incProj; split <;> simp

theorem length_decProj (l : List Int) (i : Int) : (decProj l i).length = l.length := by
  unfold decProj; split <;> simp

theorem incProj_pos (l : List Int) (i : Int) (h : 0 ≤ i) :
    incProj l i = l.set i.toNat (l.getD i.toNat 0 + 1) := if_pos h

theorem incProj_neg (l : List Int) (i : Int) (h : ¬0 ≤ i) : incProj l i = l := if_neg h

theorem decProj_pos (l : List Int) (i : Int) (h : 0 ≤ i) :
    decProj l i = l.set i.toNat (l.getD i.toNat 0 - 1) := if_pos h

theorem decProj_neg (l : List Int) (i : Int) (h : ¬0 ≤ i) : decProj l i = l := if_neg h

theorem setTile_pos (x y : Int) (v : TileType) (d : Diagram) (h : 0 ≤ x ∧ 0 ≤ y) :
    setTile x y v d = d.set x.toNat ((d.getD x.toNat []).set y.toNat v) := if_pos h

theorem setTile_neg (x y : Int) (v : TileType) (d : Diagram) (h : ¬(0 ≤ x ∧ 0 ≤ y)) :
    setTile x y v d = d := if_neg h

theorem getTile_pos (d : Diagram) (x y : Int) (h : 0 ≤ x ∧ 0 ≤ y) :
    getTile d x y = (d.getD x.toNat []).getD y.toNat WALL := if_pos h

theorem getTile_neg (d : Diagram) (x y : Int) (h : ¬(0 ≤ x ∧ 0 ≤ y)) :
    getTile d x y = WALL := if_neg h

theorem decProj_incProj (l : List Int) (i : Int) : decProj (incProj l i) i = l := by
  by_cases h : 0 ≤ i
  · rw [incProj_pos _ _ h, decProj_pos _ _ h]
    by_cases hlen : i.toNat < l.length
    · rw [getD_set_self _ _ _ _ hlen, List.set_set]
      have he : l.getD i.toNat 0 + 1 - 1 = l.getD i.toNat 0 := by ring
      rw [he]
      exact set_getD_self l i.toNat 0
    · rw [List.set_eq_of_length_le (Nat.le_of_not_lt hlen)]
      rw [List.set_eq_of_length_le (Nat.le_of_not_lt hlen)]
  · rw [incProj_neg _ _ h, decProj_neg _ _ h]

theorem incProj_decProj_comm (l : List Int) (i j : Int) :
    incProj (decProj l i) j = decProj (incProj l j) i := by
  by_cases hi : 0 ≤ i
  · by_cases hj : 0 ≤ j
    · by_cases hij : i.toNat = j.toNat
      · have hij' : i = j := by omega
        subst hij'
        by_cases hlen : i.toNat < l.length
        · rw [decProj_pos _ _ hi, incProj_pos _ _ hi, incProj_pos _ _ hi,
              decProj_pos _ _ hi, getD_set_self _ _ _ _ hlen,
              getD_set_self _ _ _ _ hlen, List.set_set, List.set_set]
          congr 1
          ring
        · have hle : l.length ≤ i.toNat := Nat.le_of_not_lt hlen
          rw [decProj_pos _ _ hi, incProj_pos _ _ hi,
              List.set_eq_of_length_le hle, List.set_eq_of_length_le hle,
              incProj_pos _ _ hi, decProj_pos _ _ hi,
              List.set_eq_of_length_le hle, List.set_eq_of_length_le hle]
      · rw [decProj_pos _ _ hi, incProj_pos _ _ hj, incProj_pos _ _ hj,
            decProj_pos _ _ hi, getD_set_ne _ _ _ _ _ hij,
            getD_set_ne _ _ _ _ _ (Ne.symm hij), List.set_comm _ _ _ hij]
    · rw [incProj_neg _ _ hj, incProj_neg _ _ hj]
  · rw [decProj_neg _ _ hi, decProj_neg _ _ hi]

theorem setTile_setTile (d : Diagram) (x y : Int) (v1 v2 : TileType) :
    setTile x y v2 (setTile x y v1 d) = setTile x y v2 d := by
  by_cases h : 0 ≤ x ∧ 0 ≤ y
  · rw [setTile_pos x y v1 d h, setTile_pos x y v2 _ h, setTile_pos x y v2 d h]
    by_cases hlen : x.toNat < d.length
    · rw [getD_set_self _ _ _ _ hlen, List.set_set, List.set_set]
    · have hle : d.length ≤ x.toNat := Nat.le_of_not_lt hlen
      simp only [List.set_eq_of_length_le hle]
  · rw [setTile_neg x y v1 d h]

theorem setTile_getTile (d : Diagram) (x y : Int) :
    setTile x y (getTile d x y) d = d := by
  by_cases h : 0 ≤ x ∧ 0 ≤ y
  · rw [getTile_pos d x y h, setTile_pos _ _ _ _ h, set_getD_self, set_getD_self]
  · rw [getTile_neg d x y h, setTile_neg _ _ _ _ h]

theorem setTile_restore (d : Diagram) (x y : Int)
    (h : getTile d x y = EMPTY_SPACE) :
    setTile x y EMPTY_SPACE (setTile x y WALL d) = d := by
  rw [setTile_setTile, ← h, setTile_getTile]

theorem setTile_comm_ne (d : Diagram) (x1 y1 x2 y2 : Int) (v1 v2 : TileType)
    (h : ¬(x1 = x2 ∧ y1 = y2)) :
    setTile x1 y1 v1 (setTile x2 y2 v2 d) = setTile x2 y2 v2 (setTile x1 y1 v1 d) := by
  by_cases h1 : 0 ≤ x1 ∧ 0 ≤ y1
  · by_cases h2 : 0 ≤ x2 ∧ 0 ≤ y2
    · by_cases hx : x1.toNat = x2.toNat
      · have hxx : x1 = x2 := by omega
        subst hxx
        have hyn : y1.toNat ≠ y2.toNat := by
          intro hy
          exact h ⟨rfl, by omega⟩
        by_cases hlen : x1.toNat < d.length
        · rw [setTile_pos x1 y2 v2 d h2, setTile_pos x1 y1 v1 _ h1,
              setTile_pos x1 y1 v1 d h1, setTile_pos x1 y2 v2 _ h2,
              getD_set_self _ _ _ _ hlen, getD_set_self _ _ _ _ hlen,
              List.set_set, List.set_set, List.set_comm _ _ _ hyn]
        · have hle : d.length ≤ x1.toNat := Nat.le_of_not_lt hlen
          rw [setTile_pos x1 y2 v2 d h2, setTile_pos x1 y1 v1 _ h1,
              setTile_pos x1 y1 v1 d h1, setTile_pos x1 y2 v2 _ h2]
          simp only [List.set_eq_of_length_le hle]
      · have hx' : x2.toNat ≠ x1.toNat := Ne.symm hx
        rw [setTile_pos x2 y2 v2 d h2, setTile_pos x1 y1 v1 _ h1,
            setTile_pos x1 y1 v1 d h1, setTile_pos x2 y2 v2 _ h2,
            getD_set_ne _ _ _ _ _ hx', getD_set_ne _ _ _ _ _ hx,
            List.set_comm _ _ _ hx']
    · rw [setTile_neg x2 y2 v2 d h2, setTile_neg x2 y2 v2 _ h2]
  · rw [setTile_neg x1 y1 v1 d h1, setTile_neg x1 y1 v1 _ h1]

theorem place_unplace_comm (c c' : Coordinate) (s : SearchState) (h : c ≠ c') :
    unplaceWall c (placeWall c' s) = placeWall c' (unplaceWall c s) := by
  have hcell : ¬(c.x = c'.x ∧ c.y = c'.y) := by
    intro hc
    apply h
    cases c
    cases c'
    simp_all
  cases s with
  | mk d cr cc ht hm rl =>
    simp only [placeWall, unplaceWall, SearchState.mk.injEq]
    exact ⟨setTile_comm_ne _ _ _ _ _ _ _ hcell,
      (incProj_decProj_comm _ _ _).symm, (incProj_decProj_comm _ _ _).symm,
      trivial, trivial, trivial⟩

theorem unplace_place (c : Coordinate) (s : SearchState)
    (h : getTile s.diagram c.x c.y = EMPTY_SPACE) :
    unplaceWall c (placeWall c s) = s := by
  unfold placeWall unplaceWall
  simp only
  cases s with
  | mk d cr cc ht hm rl =>
    simp only [SearchState.mk.injEq]
    exact ⟨setTile_restore _ _ _ h, decProj_incProj _ _, decProj_incProj _ _,
      trivial, trivial, trivial⟩

theorem unplace_placeSeq_comm (c : Coordinate) :
    ∀ (cs : List Coordinate) (t : SearchState), c ∉ cs →
    unplaceWall c (placeSeq cs t) = placeSeq cs (unplaceWall c t)
  | [], _, _ => rfl
  | c' :: cs, t, hmem => by
    have h1 : c ∉ cs := fun hc => hmem (List.mem_cons_of_mem _ hc)
    have h2 : c ≠ c' := fun hc => hmem (hc ▸ List.mem_cons_self _ _)
    show unplaceWall c (placeSeq cs (placeWall c' t)) = placeSeq cs (placeWall c' (unplaceWall c t))
    rw [unplace_placeSeq_comm c cs _ h1, place_unplace_comm c c' t h2]

theorem undoPlaced_placeSeq :
    ∀ (cs : List Coordinate) (s : SearchState), cs.Nodup →
    (∀ c ∈ cs, getTile s.diagram c.x c.y = EMPTY_SPACE) →
    undoPlaced cs (placeSeq cs s) = s
  | [], _, _, _ => rfl
  | c :: cs, s, hnd, hemp => by
    have hnotmem : c ∉ cs := (List.nodup_cons.mp hnd).1
    show undoPlaced cs (unplaceWall c (placeSeq cs (placeWall c s))) = s
    rw [unplace_placeSeq_comm c cs _ hnotmem,
        unplace_place c s (hemp c (List.mem_cons_self _ _))]
    exact undoPlaced_placeSeq cs s (List.nodup_cons.mp hnd).2
      (fun c' hc' => hemp c' (List.mem_cons_of_mem _ hc'))

theorem undoPlaced_setHandled (cs : List Coordinate) :
    ∀ (s : SearchState) (h1 h2 : List Int) (r : List Coordinate),
    undoPlaced cs { s with handledT := h1, handledM := h2, roomLTs := r } =
    { undoPlaced cs s with handledT := h1, handledM := h2, roomLTs := r } := by
  induction cs with
  | nil => intro s h1 h2 r; rfl
  | cons c cs ih =>
    intro s h1 h2 r
    show undoPlaced cs { unplaceWall c s with handledT := h1, handledM := h2, roomLTs := r } =
      { undoPlaced cs (unplaceWall c s) with handledT := h1, handledM := h2, roomLTs := r }
    exact ih (unplaceWall c s) h1 h2 r

theorem placeAllButOne_skip (p : Params) (c : Coordinate) (rest : List Coordinate)
    (j i : Nat) (s : SearchState) (hj : j = i) :
    placeAllButOne p (c :: rest) j i s = placeAllButOne p rest (j + 1) i s := by
  conv_lhs => unfold placeAllButOne
  rw [if_pos hj]

theorem placeAllButOne_place (p : Params) (c : Coordinate) (rest : List Coordinate)
    (j i : Nat) (s : SearchState) (hj : ¬j = i)
    (hp : isTilePlacable (c.x - 1) (c.y - 1) s.curRow s.curCol p.rowProj p.colProj = true) :
    placeAllButOne p (c :: rest) j i s =
      (c :: (placeAllButOne p rest (j + 1) i (placeWall c s)).1,
       (placeAllButOne p rest (j + 1) i (placeWall c s)).2) := by
  conv_lhs => unfold placeAllButOne
  rw [if_neg hj, if_pos hp]

theorem placeAllButOne_stop (p : Params) (c : Coordinate) (rest : List Coordinate)
    (j i : Nat) (s : SearchState) (hj : ¬j = i)
    (hp : ¬isTilePlacable (c.x - 1) (c.y - 1) s.curRow s.curCol p.rowProj p.colProj = true) :
    placeAllButOne p (c :: rest) j i s = ([], s) := by
  conv_lhs => unfold placeAllButOne
  rw [if_neg hj, if_neg hp]

theorem placeAllButOne_state (p : Params) :
    ∀ (coords : List Coordinate) (j i : Nat) (s : SearchState),
    (placeAllButOne p coords j i s).2 = placeSeq (placeAllButOne p coords j i s).1 s
  | [], _, _, _ => rfl
  | c :: rest, j, i, s => by
    by_cases hj : j = i
    · rw [placeAllButOne_skip p c rest j i s hj]
      exact placeAllButOne_state p rest (j + 1) i s
    · by_cases hp : isTilePlacable (c.x - 1) (c.y - 1) s.curRow s.curCol p.rowProj p.colProj = true
      · rw [placeAllButOne_place p c rest j i s hj hp]
        exact placeAllButOne_state p rest (j + 1) i (placeWall c s)
      · rw [placeAllButOne_stop p c rest j i s hj hp]
        rfl

theorem placeAllButOne_sublist (p : Params) :
    ∀ (coords : List Coordinate) (j i : Nat) (s : SearchState),
    (placeAllButOne p coords j i s).1.Sublist coords
  | [], _, _, _ => List.Sublist.refl _
  | c :: rest, j, i, s => by
    by_cases hj : j = i
    · rw [placeAllButOne_skip p c rest j i s hj]
      exact List.Sublist.cons c (placeAllButOne_sublist p rest (j + 1) i s)
    · by_cases hp : isTilePlacable (c.x - 1) (c.y - 1) s.curRow s.curCol p.rowProj p.colProj = true
      · rw [placeAllButOne_place p c rest j i s hj hp]
        exact List.Sublist.cons₂ c (placeAllButOne_sublist p rest (j + 1) i (placeWall c s))
      · rw [placeAllButOne_stop p c rest j i s hj hp]
        exact List.nil_sublist _

theorem placeCombo_eq (avail : List Coordinate) :
    ∀ (combo : List Nat) (s : SearchState),
    placeCombo avail combo s = placeSeq (combo.map fun i => avail.getD i ⟨0, 0⟩) s
  | [], _ => rfl
  | i :: is, s => by
    show placeCombo avail is (placeWall (avail.getD i ⟨0, 0⟩) s) = _
    rw [placeCombo_eq avail is]
    rfl

theorem getTRoomOuterTileCoords_nodup (x y : Int) :
    (getTRoomOuterTileCoords x y).Nodup := by
  simp only [getTRoomOuterTileCoords, List.nodup_cons, List.mem_cons,
    List.not_mem_nil, Coordinate.mk.injEq, List.nodup_nil, or_false,
    not_or, and_true]
  norm_num
  omega

theorem get4DirectionCoords_nodup (x y : Int) :
    (get4DirectionCoords x y).Nodup := by
  simp only [get4DirectionCoords, List.nodup_cons, List.mem_cons,
    List.not_mem_nil, Coordinate.mk.injEq, List.nodup_nil, or_false,
    not_or, and_true]
  norm_num
  omega

/-! Combination generator: the pruned source enumeration equals the spec
enumeration, has `Nat.choose` length, and yields distinct strictly increasing
index lists. -/

theorem specSelect_eq_nil (m n : Nat) :
    ∀ (k step : Nat) (cur : List Nat), n - step ≤ k →
    cur.length + (n - step) < m → specSelect m n step cur = [] := by
  intro k
  induction k with
  | zero =>
    intro step cur hk hlt
    rw [specSelect]
    rw [if_neg (by omega : ¬cur.length = m), if_pos (by omega : n ≤ step)]
  | succ k ih =>
    intro step cur hk hlt
    rw [specSelect]
    rw [if_neg (by omega : ¬cur.length = m)]
    by_cases h2 : n ≤ step
    · rw [if_pos h2]
    · rw [if_neg h2,
          ih (step + 1) (cur ++ [step]) (by omega) (by simp; omega),
          ih (step + 1) cur (by omega) (by omega)]
      rfl

theorem recursiveSelect_unfold (m n step : Nat) (cur : List Nat) :
    recursiveSelect m n step cur =
      if cur.length = m then [cur]
      else if n ≤ step then []
      else
        recursiveSelect m n (step + 1) (cur ++ [step]) ++
        (if m ≤ cur.length + (n - 1 - step) then recursiveSelect m n (step + 1) cur
         else []) := by
  unfold recursiveSelect
  conv_lhs => rw [recursiveSelectGo.eq_def]
  dsimp only
  by_cases h1 : cur.length = m
  · rw [if_pos h1, if_pos h1]
  · rw [if_neg h1, if_neg h1]
    by_cases h2 : n ≤ step
    · rw [if_pos h2, if_pos h2]
    · rw [if_neg h2, if_neg h2]
      have hf : n - step = (n - (step + 1)) + 1 := by omega
      rw [hf]

theorem recursiveSelect_eq_specSelect (m n : Nat) :
    ∀ (k step : Nat) (cur : List Nat), n - step ≤ k →
    recursiveSelect m n step cur = specSelect m n step cur := by
  intro k
  induction k with
  | zero =>
    intro step cur hk
    rw [recursiveSelect_unfold, specSelect]
    by_cases h1 : cur.length = m
    · rw [if_pos h1, if_pos h1]
    · rw [if_neg h1, if_neg h1, if_pos (by omega : n ≤ step),
          if_pos (by omega : n ≤ step)]
  | succ k ih =>
    intro step cur hk
    rw [recursiveSelect_unfold, specSelect]
    by_cases h1 : cur.length = m
    · rw [if_pos h1, if_pos h1]
    · rw [if_neg h1, if_neg h1]
      by_cases h2 : n ≤ step
      · rw [if_pos h2, if_pos h2]
      · rw [if_neg h2, if_neg h2, ih (step + 1) (cur ++ [step]) (by omega)]
        by_cases h3 : m ≤ cur.length + (n - 1 - step)
        · rw [if_pos h3, ih (step + 1) cur (by omega)]
        · rw [if_neg h3,
              specSelect_eq_nil m n k (step + 1) cur (by omega) (by omega)]

theorem specSelect_length (m n : Nat) :
    ∀ (k step : Nat) (cur : List Nat), n - step ≤ k → cur.length ≤ m →
    (specSelect m n step cur).length = Nat.choose (n - step) (m - cur.length) := by
  intro k
  induction k with
  | zero =>
    intro step cur hk hle
    rw [specSelect]
    by_cases h1 : cur.length = m
    · rw [if_pos h1, h1, Nat.sub_self]
      simp
    · rw [if_neg h1, if_pos (by omega : n ≤ step),
          (by omega : n - step = 0), Nat.choose_eq_zero_of_lt (by omega)]
      rfl
  | succ k ih =>
    intro step cur hk hle
    rw [specSelect]
    by_cases h1 : cur.length = m
    · rw [if_pos h1, h1, Nat.sub_self]
      simp
    · by_cases h2 : n ≤ step
      · rw [if_neg h1, if_pos h2, (by omega : n - step = 0),
            Nat.choose_eq_zero_of_lt (by omega)]
        rfl
      · rw [if_neg h1, if_neg h2, List.length_append,
            ih (step + 1) (cur ++ [step]) (by omega) (by simp; omega),
            ih (step + 1) cur (by omega) hle]
        simp only [List.length_append, List.length_singleton]
        rw [(by omega : n - step = (n - (step + 1)) + 1),
            (by omega : m - cur.length = (m - (cur.length + 1)) + 1),
            Nat.choose_succ_succ]

theorem specSelect_mem (m n : Nat) :
    ∀ (k step : Nat) (cur : List Nat) (l : List Nat), n - step ≤ k →
    l ∈ specSelect m n step cur →
    ∃ ext, l = cur ++ ext ∧ l.length = m ∧ List.Chain' (· < ·) ext ∧
      ∀ a ∈ ext, step ≤ a ∧ a < n := by
  intro k
  induction k with
  | zero =>
    intro step cur l hk hmem
    rw [specSelect] at hmem
    by_cases h1 : cur.length = m
    · rw [if_pos h1] at hmem
      rw [List.mem_singleton] at hmem
      subst hmem
      exact ⟨[], by simp, h1, List.chain'_nil, by simp⟩
    · rw [if_neg h1, if_pos (by omega : n ≤ step)] at hmem
      simp at hmem
  | succ k ih =>
    intro step cur l hk hmem
    rw [specSelect] at hmem
    by_cases h1 : cur.length = m
    · rw [if_pos h1] at hmem
      rw [List.mem_singleton] at hmem
      subst hmem
      exact ⟨[], by simp, h1, List.chain'_nil, by simp⟩
    · rw [if_neg h1] at hmem
      by_cases h2 : n ≤ step
      · rw [if_pos h2] at hmem
        simp at hmem
      · rw [if_neg h2] at hmem
        rcases List.mem_append.mp hmem with hin | hsk
        · obtain ⟨ext, hl, hlen, hch, hbnd⟩ :=
            ih (step + 1) (cur ++ [step]) l (by omega) hin
          refine ⟨step :: ext, by rw [hl, List.append_assoc]; rfl, hlen, ?_, ?_⟩
          · cases ext with
            | nil => exact List.chain'_singleton _
            | cons b t =>
              refine List.chain'_cons.mpr ⟨?_, hch⟩
              have := (hbnd b (List.mem_cons_self _ _)).1
              omega
          · intro a ha
            rcases List.mem_cons.mp ha with rfl | ha
            · exact ⟨Nat.le_refl _, by omega⟩
            · have := hbnd a ha
              exact ⟨by omega, this.2⟩
        · obtain ⟨ext, hl, hlen, hch, hbnd⟩ := ih (step + 1) cur l (by omega) hsk
          refine ⟨ext, hl, hlen, hch, fun a ha => ?_⟩
          have := hbnd a ha
          exact ⟨by omega, this.2⟩

theorem specSelect_nodup (m n : Nat) :
    ∀ (k step : Nat) (cur : List Nat), n - step ≤ k →
    (specSelect m n step cur).Nodup := by
  intro k
  induction k with
  | zero =>
    intro step cur hk
    rw [specSelect]
    by_cases h1 : cur.length = m
    · rw [if_pos h1]
      exact List.nodup_singleton _
    · rw [if_neg h1, if_pos (by omega : n ≤ step)]
      exact List.nodup_nil
  | succ k ih =>
    intro step cur hk
    rw [specSelect]
    by_cases h1 : cur.length = m
    · rw [if_pos h1]
      exact List.nodup_singleton _
    · by_cases h2 : n ≤ step
      · rw [if_neg h1, if_pos h2]
        exact List.nodup_nil
      · rw [if_neg h1, if_neg h2]
        refine List.Nodup.append (ih (step + 1) _ (by omega))
          (ih (step + 1) _ (by omega)) ?_
        intro l hin hsk
        obtain ⟨ext1, hl1, _, _, _⟩ :=
          specSelect_mem m n k (step + 1) (cur ++ [step]) l (by omega) hin
        obtain ⟨ext2, hl2, hlen2, _, hbnd2⟩ :=
          specSelect_mem m n k (step + 1) cur l (by omega) hsk
        rw [hl1, List.append_assoc] at hl2
        have hx : step :: ext1 = ext2 := List.append_cancel_left hl2
        have hstep : step ∈ ext2 := hx ▸ List.mem_cons_self _ _
        have := (hbnd2 step hstep).1
        omega

theorem getCombinations_eq_specCombinations (m n : Nat) :
    getCombinations m n = specCombinations m n := by
  unfold getCombinations specCombinations
  by_cases h : n < m
  · rw [if_pos h, if_pos h]
  · rw [if_neg h, if_neg h, recursiveSelect_eq_specSelect m n n 0 [] (by omega)]

theorem getCombinations_of_gt (m n : Nat) (h : n < m) : getCombinations m n = [] := by
  unfold getCombinations
  rw [if_pos h]

theorem getCombinations_length (m n : Nat) (h : m ≤ n) :
    (getCombinations m n).length = Nat.choose n m := by
  rw [getCombinations_eq_specCombinations]
  unfold specCombinations
  rw [if_neg (by omega)]
  have hs := specSelect_length m n n 0 [] (by omega) (by simp)
  simpa using hs

theorem getCombinations_nodup (m n : Nat) : (getCombinations m n).Nodup := by
  rw [getCombinations_eq_specCombinations]
  unfold specCombinations
  by_cases h : n < m
  · rw [if_pos h]
    exact List.nodup_nil
  · rw [if_neg h]
    exact specSelect_nodup m n n 0 [] (by omega)

theorem getCombinations_mem (m n : Nat) (l : List Nat) (h : l ∈ getCombinations m n) :
    l.length = m ∧ List.Chain' (· < ·) l ∧ ∀ a ∈ l, a < n := by
  rw [getCombinations_eq_specCombinations] at h
  unfold specCombinations at h
  by_cases hn : n < m
  · rw [if_pos hn] at h
    simp at h
  · rw [if_neg hn] at h
    obtain ⟨ext, hl, hlen, hch, hbnd⟩ := specSelect_mem m n n 0 [] l (by omega) h
    rw [List.nil_append] at hl
    subst hl
    exact ⟨hlen, hch, fun a ha => (hbnd a ha).2⟩

theorem getCombinations_mem_nodup (m n : Nat) (l : List Nat)
    (h : l ∈ getCombinations m n) : l.Nodup := by
  have hch := (getCombinations_mem m n l h).2.1
  have hpw : l.Pairwise (· < ·) := List.chain'_iff_pairwise.mp hch
  exact hpw.imp Nat.ne_of_lt

/-! Hallway validator: `checkHallways` fails exactly on a fully open 2×2
block outside all committed rooms. -/

theorem mem_interiorCoords (c : Coordinate) :
    c ∈ interiorCoords ↔ 1 ≤ c.x ∧ c.x ≤ 8 ∧ 1 ≤ c.y ∧ c.y ≤ 8 := by
  unfold interiorCoords
  rw [List.mem_flatten]
  constructor
  · rintro ⟨l, hl, hc⟩
    rw [List.mem_map] at hl
    obtain ⟨i, hi, rfl⟩ := hl
    rw [List.mem_map] at hc
    obtain ⟨j, hj, rfl⟩ := hc
    rw [List.mem_range] at hi
    rw [List.mem_range] at hj
    dsimp only
    simp only [Int.ofNat_eq_coe]
    omega
  · intro hb
    refine ⟨_, List.mem_map.mpr ⟨(c.x - 1).toNat, List.mem_range.mpr (by omega), rfl⟩, ?_⟩
    refine List.mem_map.mpr ⟨(c.y - 1).toNat, List.mem_range.mpr (by omega), ?_⟩
    cases c with
    | mk cx cy =>
      rw [Coordinate.mk.injEq]
      dsimp only at hb ⊢
      simp only [Int.ofNat_eq_coe]
      constructor <;> omega

theorem getD_default_of_le {α : Type} (l : List α) (i : Nat) (d : α)
    (h : l.length ≤ i) : l.getD i d = d := by
  rw [List.getD_eq_getElem?_getD, List.getElem?_eq_none h]
  rfl

theorem getTile_empty_bounds (d : Diagram) (x y : Int) (hd : d.length = 10)
    (hrow : ∀ row ∈ d, row.length = 10) (h : getTile d x y = EMPTY_SPACE) :
    0 ≤ x ∧ x ≤ 9 ∧ 0 ≤ y ∧ y ≤ 9 := by
  by_cases hb : 0 ≤ x ∧ 0 ≤ y
  · rw [getTile_pos _ _ _ hb] at h
    by_cases hx : x.toNat < d.length
    · have hmem : d.getD x.toNat [] ∈ d := by
        rw [List.getD_eq_getElem?_getD, List.getElem?_eq_getElem hx]
        exact List.getElem_mem _
      have hr : (d.getD x.toNat []).length = 10 := hrow _ hmem
      by_cases hy : y.toNat < (d.getD x.toNat []).length
      · refine ⟨hb.1, by omega, hb.2, by omega⟩
      · rw [getD_default_of_le _ _ _ (Nat.le_of_not_lt hy)] at h
        exact absurd h (by simp)
    · rw [getD_default_of_le _ _ _ (by omega : d.length ≤ x.toNat)] at h
      simp at h
  · rw [getTile_neg _ _ _ hb] at h
    exact absurd h (by simp)

theorem sum3_ite (A B C : Prop) [Decidable A] [Decidable B] [Decidable C] :
    (3 ≤ (if A then (1 : Nat) else 0) +
      ((if B then (1 : Nat) else 0) + ((if C then (1 : Nat) else 0) + 0))) ↔
    (A ∧ B ∧ C) := by
  split_ifs <;> simp_all

theorem sum4_ite (A B C D : Prop) [Decidable A] [Decidable B] [Decidable C] [Decidable D] :
    (0 < (if A then (1 : Nat) else 0) +
      ((if B then (1 : Nat) else 0) +
        ((if C then (1 : Nat) else 0) + ((if D then (1 : Nat) else 0) + 0)))) ↔
    (A ∨ B ∨ C ∨ D) := by
  split_ifs <;> simp_all

theorem hallway_cell_false (lts : List Coordinate) (d : Diagram) (x y : Int) :
    (((!(getTile d x y == EMPTY_SPACE &&
      !(isContainedByTRoom x y lts) &&
      (((get4TilesSpaces x y).map fun space =>
          if 3 ≤ (space.map fun q =>
              if getTile d q.x q.y == EMPTY_SPACE &&
                 !(isContainedByTRoom q.x q.y lts)
              then (1 : Nat) else 0).sum
          then (1 : Nat) else 0).sum > 0))) = false) ↔
    ((getTile d x y = EMPTY_SPACE ∧ isContainedByTRoom x y lts = false) ∧
      (((getTile d (x - 1) (y - 1) = EMPTY_SPACE ∧ isContainedByTRoom (x - 1) (y - 1) lts = false) ∧
        (getTile d x (y - 1) = EMPTY_SPACE ∧ isContainedByTRoom x (y - 1) lts = false) ∧
        (getTile d (x - 1) y = EMPTY_SPACE ∧ isContainedByTRoom (x - 1) y lts = false)) ∨
       ((getTile d x (y - 1) = EMPTY_SPACE ∧ isContainedByTRoom x (y - 1) lts = false) ∧
        (getTile d (x + 1) (y - 1) = EMPTY_SPACE ∧ isContainedByTRoom (x + 1) (y - 1) lts = false) ∧
        (getTile d (x + 1) y = EMPTY_SPACE ∧ isContainedByTRoom (x + 1) y lts = false)) ∨
       ((getTile d (x + 1) y = EMPTY_SPACE ∧ isContainedByTRoom (x + 1) y lts = false) ∧
        (getTile d (x + 1) (y + 1) = EMPTY_SPACE ∧ isContainedByTRoom (x + 1) (y + 1) lts = false) ∧
        (getTile d x (y + 1) = EMPTY_SPACE ∧ isContainedByTRoom x (y + 1) lts = false)) ∨
       ((getTile d x (y + 1) = EMPTY_SPACE ∧ isContainedByTRoom x (y + 1) lts = false) ∧
        (getTile d (x - 1) (y + 1) = EMPTY_SPACE ∧ isContainedByTRoom (x - 1) (y + 1) lts = false) ∧
        (getTile d (x - 1) y = EMPTY_SPACE ∧ isContainedByTRoom (x - 1) y lts = false))))) := by
  rw [Bool.not_eq_false']
  simp only [get4TilesSpaces, List.map_cons, List.map_nil, List.sum_cons, List.sum_nil,
    gt_iff_lt, Bool.not_eq_false', Bool.and_eq_true, beq_iff_eq, Bool.not_eq_true',
    decide_eq_true_eq]
  rw [sum4_ite, sum3_ite, sum3_ite, sum3_ite, sum3_ite]

/-- C8: for every grid and every list of committed treasure-room top-left
corners, `checkHallways` returns false if and only if some axis-aligned 2×2
block has all four tiles empty and outside every committed room; equivalently
it returns true exactly when no fully open 2×2 block exists. -/
theorem c8_hallway_validator (lts : List Coordinate) (d : Diagram)
    (hd : d.length = 10) (hrow : ∀ row ∈ d, row.length = 10) :
    (checkHallways lts d = false ↔
      ∃ a b : Int,
        (getTile d a b = EMPTY_SPACE ∧ isContainedByTRoom a b lts = false) ∧
        (getTile d (a + 1) b = EMPTY_SPACE ∧ isContainedByTRoom (a + 1) b lts = false) ∧
        (getTile d a (b + 1) = EMPTY_SPACE ∧ isContainedByTRoom a (b + 1) lts = false) ∧
        (getTile d (a + 1) (b + 1) = EMPTY_SPACE ∧
          isContainedByTRoom (a + 1) (b + 1) lts = false)) := by
  unfold checkHallways
  rw [List.all_eq_false]
  constructor
  · rintro ⟨c, hc, hfc⟩
    rw [Bool.not_eq_true] at hfc
    have hp := (hallway_cell_false lts d c.x c.y).mp hfc
    rcases hp with ⟨hcen, ht1 | ht2 | ht3 | ht4⟩
    · refine ⟨c.x - 1, c.y - 1, ?_⟩
      rw [Int.sub_add_cancel, Int.sub_add_cancel]
      exact ⟨ht1.1, ht1.2.1, ht1.2.2, hcen⟩
    · refine ⟨c.x, c.y - 1, ?_⟩
      rw [Int.sub_add_cancel]
      exact ⟨ht2.1, ht2.2.1, hcen, ht2.2.2⟩
    · exact ⟨c.x, c.y, hcen, ht3.1, ht3.2.2, ht3.2.1⟩
    · refine ⟨c.x - 1, c.y, ?_⟩
      rw [Int.sub_add_cancel]
      exact ⟨ht4.2.2, hcen, ht4.2.1, ht4.1⟩
  · rintro ⟨a, b, h00, h10, h01, h11⟩
    obtain ⟨ha0, _, hb0, _⟩ := getTile_empty_bounds d a b hd hrow h00.1
    obtain ⟨_, ha9, _, hb9⟩ := getTile_empty_bounds d (a + 1) (b + 1) hd hrow h11.1
    by_cases hax : a = 0
    · by_cases hby : b = 0
      · refine ⟨⟨a + 1, b + 1⟩, ?_, ?_⟩
        · rw [mem_interiorCoords]
          dsimp only
          omega
        · rw [Bool.not_eq_true]
          refine (hallway_cell_false lts d (a + 1) (b + 1)).mpr ?_
          rw [(by ring : a + 1 - 1 = a), (by ring : b + 1 - 1 = b)]
          exact ⟨h11, Or.inl ⟨h00, h10, h01⟩⟩
      · refine ⟨⟨a + 1, b⟩, ?_, ?_⟩
        · rw [mem_interiorCoords]
          dsimp only
          omega
        · rw [Bool.not_eq_true]
          refine (hallway_cell_false lts d (a + 1) b).mpr ?_
          rw [(by ring : a + 1 - 1 = a)]
          exact ⟨h10, Or.inr (Or.inr (Or.inr ⟨h11, h01, h00⟩))⟩
    · by_cases hby : b = 0
      · refine ⟨⟨a, b + 1⟩, ?_, ?_⟩
        · rw [mem_interiorCoords]
          dsimp only
          omega
        · rw [Bool.not_eq_true]
          refine (hallway_cell_false lts d a (b + 1)).mpr ?_
          rw [(by ring : b + 1 - 1 = b)]
          exact ⟨h01, Or.inr (Or.inl ⟨h00, h10, h11⟩)⟩
      · refine ⟨⟨a, b⟩, ?_, ?_⟩
        · rw [mem_interiorCoords]
          dsimp only
          omega
        · rw [Bool.not_eq_true]
          exact (hallway_cell_false lts d a b).mpr
            ⟨h00, Or.inr (Or.inr (Or.inl ⟨h10, h11, h01⟩))⟩

/-- Witness for C8: on the augmented all-empty grid with no rooms the
validator indeed returns false, exhibited through the 2×2 block at (1,1). -/
theorem c8_hallway_validator_witness :
    checkHallways [] (augmentRawDiagram rawAllEmpty) = false :=
  (c8_hallway_validator [] (augmentRawDiagram rawAllEmpty) (by decide)
    (by decide)).mpr ⟨1, 1, by decide, by decide, by decide, by decide⟩

/-! Treasure-room validator characterisation. -/

theorem findTRoomLT_isSome_iff (x y : Int) (d : Diagram) :
    ((findTRoomLT x y d).isSome = true ↔
      ∃ lt ∈ getTRoomLTCoords x y,
        isTRoomLTCoordAvailable lt.x lt.y = true ∧
        isTRoomTilesAvailable lt.x lt.y d = true ∧
        isTRoomWallsAvailable lt.x lt.y d = true) := by
  unfold findTRoomLT
  rw [List.find?_isSome]
  constructor
  · rintro ⟨lt, hmem, hp⟩
    rw [Bool.and_eq_true, Bool.and_eq_true] at hp
    exact ⟨lt, hmem, hp.1.1, hp.1.2, hp.2⟩
  · rintro ⟨lt, hmem, h1, h2, h3⟩
    exact ⟨lt, hmem, by rw [Bool.and_eq_true, Bool.and_eq_true]; exact ⟨⟨h1, h2⟩, h3⟩⟩

theorem ctrGo_cons_skip (d : Diagram) (c : Coordinate) (rest acc : List Coordinate)
    (h : ¬(getTile d c.x c.y == TREASURE) = true) :
    ctrGo d (c :: rest) acc = ctrGo d rest acc := by
  conv_lhs => unfold ctrGo
  rw [if_neg h]

theorem ctrGo_cons_some (d : Diagram) (c : Coordinate) (rest acc : List Coordinate)
    (lt : Coordinate) (h : (getTile d c.x c.y == TREASURE) = true)
    (hf : findTRoomLT c.x c.y d = some lt) :
    ctrGo d (c :: rest) acc = ctrGo d rest (acc ++ [lt]) := by
  conv_lhs => unfold ctrGo
  rw [if_pos h, hf]

theorem ctrGo_cons_none (d : Diagram) (c : Coordinate) (rest acc : List Coordinate)
    (h : (getTile d c.x c.y == TREASURE) = true)
    (hf : findTRoomLT c.x c.y d = none) :
    ctrGo d (c :: rest) acc = (false, []) := by
  conv_lhs => unfold ctrGo
  rw [if_pos h, hf]

theorem ctrGo_fst_true_iff (d : Diagram) :
    ∀ (coords acc : List Coordinate),
    ((ctrGo d coords acc).1 = true ↔
      ∀ c ∈ coords, getTile d c.x c.y = TREASURE → (findTRoomLT c.x c.y d).isSome = true)
  | [], acc => by
    constructor
    · intro _ c hc
      simp at hc
    · intro _
      rfl
  | c :: rest, acc => by
    by_cases ht : (getTile d c.x c.y == TREASURE) = true
    · cases hf : findTRoomLT c.x c.y d with
      | some lt =>
        rw [ctrGo_cons_some d c rest acc lt ht hf, ctrGo_fst_true_iff d rest (acc ++ [lt])]
        constructor
        · intro h q hq hqt
          rcases List.mem_cons.mp hq with rfl | hq'
          · rw [hf]
            rfl
          · exact h q hq' hqt
        · intro h q hq hqt
          exact h q (List.mem_cons_of_mem _ hq) hqt
      | none =>
        rw [ctrGo_cons_none d c rest acc ht hf]
        constructor
        · intro h
          exact absurd h (by simp)
        · intro h
          have := h c (List.mem_cons_self _ _) (by rwa [beq_iff_eq] at ht)
          rw [hf] at this
          exact absurd this (by simp)
    · rw [ctrGo_cons_skip d c rest acc ht, ctrGo_fst_true_iff d rest acc]
      constructor
      · intro h q hq hqt
        rcases List.mem_cons.mp hq with rfl | hq'
        · exact absurd (beq_iff_eq.mpr hqt) ht
        · exact h q hq' hqt
      · intro h q hq hqt
        exact h q (List.mem_cons_of_mem _ hq) hqt

/-- C2 (amended): the room validator accepts exactly when every treasure tile
has a candidate top-left in the source scan order whose room is available,
whose nine interior tiles count eight empty spaces and one treasure, and whose
twelve-tile perimeter ring counts exactly eleven walls (one opening), not
twelve. -/
theorem c2_treasure_room_validator (treasure_coords : List Coordinate) (d : Diagram) :
    ((checkTreasureRooms treasure_coords d).1 = true ↔
      ∀ c ∈ treasure_coords, getTile d c.x c.y = TREASURE →
        ∃ lt ∈ getTRoomLTCoords c.x c.y,
          isTRoomLTCoordAvailable lt.x lt.y = true ∧
          ((getTRoomTileCoords lt.x lt.y).countP
            (fun q => getTile d q.x q.y == EMPTY_SPACE)) = 8 ∧
          ((getTRoomTileCoords lt.x lt.y).countP
            (fun q => getTile d q.x q.y == TREASURE)) = 1 ∧
          ((getTRoomOuterTileCoords lt.x lt.y).countP
            (fun q => getTile d q.x q.y == WALL)) = 11) := by
  unfold checkTreasureRooms
  rw [ctrGo_fst_true_iff]
  constructor
  · intro h c hc hct
    obtain ⟨lt, hmem, h1, h2, h3⟩ := (findTRoomLT_isSome_iff c.x c.y d).mp (h c hc hct)
    rw [isTRoomTilesAvailable, Bool.and_eq_true, beq_iff_eq, beq_iff_eq] at h2
    rw [isTRoomWallsAvailable, beq_iff_eq] at h3
    exact ⟨lt, hmem, h1, h2.1, h2.2, h3⟩
  · intro h c hc hct
    obtain ⟨lt, hmem, h1, h2, h3, h4⟩ := h c hc hct
    refine (findTRoomLT_isSome_iff c.x c.y d).mpr ⟨lt, hmem, h1, ?_, ?_⟩
    · rw [isTRoomTilesAvailable, Bool.and_eq_true, beq_iff_eq, beq_iff_eq]
      exact ⟨h2, h3⟩
    · rw [isTRoomWallsAvailable, beq_iff_eq]
      exact h4

/-- C2 counterexample: on the room-with-door grid the validator accepts the
treasure at (2,2) with room top-left (1,1) although only eleven of the twelve
perimeter tiles are walls, refuting the all-twelve-walls reading; a candidate
with eleven wall tiles is accepted, not rejected. -/
theorem c2_counterexample :
    (checkTreasureRooms [⟨2, 2⟩] dRoomDoor).1 = true ∧
    (checkTreasureRooms [⟨2, 2⟩] dRoomDoor).2 = [⟨1, 1⟩] ∧
    ((getTRoomOuterTileCoords 1 1).countP
      (fun q => getTile dRoomDoor q.x q.y == WALL)) = 11 ∧
    getTile dRoomDoor 3 4 = EMPTY_SPACE := by
  decide

/-! Monster dead-end validation inside `isSolved`. -/

theorem isSolved_checkMonstersAndDeadEnds (t m : List Coordinate) (d : Diagram)
    (h : isSolved t m d = true) : checkMonstersAndDeadEnds m d = true := by
  unfold isSolved at h
  split_ifs at h with h1 h2 <;> simp_all

/-- C7 (amended): the final validator accepts only grids where every monster
coordinate has exactly three wall cardinal neighbours; the remaining
neighbour is merely non-wall and may be a treasure or monster tile rather
than empty. -/
theorem c7_dead_end_validation (t m : List Coordinate) (d : Diagram) (c : Coordinate)
    (hc : c ∈ m) (h : isSolved t m d = true) :
    ((get4DirectionCoords c.x c.y).countP fun q => getTile d q.x q.y == WALL) = 3 := by
  have hmd := isSolved_checkMonstersAndDeadEnds t m d h
  rw [checkMonstersAndDeadEnds, Bool.and_eq_true] at hmd
  have hall := List.all_eq_true.mp hmd.1 c hc
  rw [isDeadEnds, beq_iff_eq] at hall
  exact hall

/-- Witness for C7: the monster-pocket grid is accepted and the theorem
yields the three-wall count for the monster at (1,1). -/
theorem c7_dead_end_validation_witness :
    ((get4DirectionCoords 1 1).countP fun q =>
      getTile (augmentRawDiagram rawMonsterPocket) q.x q.y == WALL) = 3 :=
  c7_dead_end_validation [] [⟨1, 1⟩, ⟨2, 1⟩] (augmentRawDiagram rawMonsterPocket)
    ⟨1, 1⟩ (by decide) (by decide)

/-- C7 counterexample: the all-wall grid with two cardinally adjacent
monsters is accepted by `isSolved` although the monster at (1,1) has its only
non-wall neighbour a monster tile, not an empty one — the validator never
demands the fourth neighbour be empty, and such grids are not rejected. -/
theorem c7_counterexample :
    isSolved [] [⟨1, 1⟩, ⟨2, 1⟩] (augmentRawDiagram rawMonsterPocket) = true ∧
    (getTreasureAndMonsterCoords (augmentRawDiagram rawMonsterPocket)).2 =
      [⟨1, 1⟩, ⟨2, 1⟩] ∧
    getTile (augmentRawDiagram rawMonsterPocket) 2 1 = MONSTER ∧
    getTile (augmentRawDiagram rawMonsterPocket) 1 0 = WALL ∧
    getTile (augmentRawDiagram rawMonsterPocket) 0 1 = WALL ∧
    getTile (augmentRawDiagram rawMonsterPocket) 1 2 = WALL := by
  decide

/-! Branch equations for `dfs`. -/

theorem dfs_zero (p : Params) (step : Nat) (s : SearchState) :
    dfs p 0 step s = (false, s) := rfl

theorem dfs_satisfied (p : Params) (fuel step : Nat) (s : SearchState)
    (h : isSatisfiedProjections s.curRow s.curCol p.rowProj p.colProj = true) :
    dfs p (fuel + 1) step s = (isSolved p.treasures p.monsters s.diagram, s) := by
  conv_lhs => unfold dfs
  rw [if_pos h]

theorem dfs_not_satisfied (p : Params) (fuel step : Nat) (s : SearchState)
    (h : isSatisfiedProjections s.curRow s.curCol p.rowProj p.colProj = false) :
    dfs p (fuel + 1) step s =
      match treasurePhase p (dfs p fuel (step + 1)) p.treasures s with
      | .success sF => (true, sF)
      | .failure sF => (false, sF)
      | .fallthrough _ s1 =>
        if s1.handledT.length ≠ p.treasures.length then (false, s1)
        else
          match monsterPhase p (dfs p fuel (step + 1)) p.monsters s1 with
          | .success sF => (true, sF)
          | .failure sF => (false, sF)
          | .fallthrough _ s2 =>
            if s2.handledM.length ≠ p.monsters.length then (false, s2)
            else deficitPhase p (dfs p fuel (step + 1)) (List.range s2.curRow.length) s2 := by
  conv_lhs => unfold dfs
  rw [if_neg (by simp [h])]

/-! C3: the all-zero, all-empty puzzle is rejected by the hallway rule. -/

theorem c3_dfs_false_all_fuel : ∀ (n step : Nat), (dfs pZero n step sZero).1 = false := by
  intro n step
  cases n with
  | zero => rfl
  | succ k =>
    rw [dfs_satisfied pZero k step sZero (by decide)]
    decide

/-- C3 counterexample: on the input whose projections are all zero and whose
8×8 map is entirely empty, `dfs` never returns true at any recursion budget:
the claimed trivial solve does not occur. -/
theorem c3_counterexample :
    ¬ ∃ n step : Nat, (dfs pZero n step sZero).1 = true := by
  rintro ⟨n, step, h⟩
  rw [c3_dfs_false_all_fuel n step] at h
  cases h

/-- C3 (amended): on the all-zero, all-empty input `dfs` returns false: the
projections are immediately satisfied, but the all-empty interior fails the
hallway-width validation inside `isSolved` (`checkHallways` is false), so the
puzzle has no solution rather than a trivial one. -/
theorem c3_trivial_puzzle_rejected :
    (∀ n step : Nat, (dfs pZero n step sZero).1 = false) ∧
    isSatisfiedProjections sZero.curRow sZero.curCol pZero.rowProj pZero.colProj = true ∧
    checkHallways [] sZero.diagram = false ∧
    isSolved pZero.treasures pZero.monsters sZero.diagram = false :=
  ⟨c3_dfs_false_all_fuel, by decide, by decide, by decide⟩

/-! C10: a monster with a non-empty non-wall neighbour aborts the branch. -/

theorem countMonsterWalls_none (d : Diagram) :
    ∀ (cs : List Coordinate) (c : Coordinate), c ∈ cs →
    getTile d c.x c.y ≠ EMPTY_SPACE → getTile d c.x c.y ≠ WALL →
    countMonsterWalls d cs = none
  | c1 :: rest, c, hmem, hne, hnw => by
    rcases List.mem_cons.mp hmem with rfl | hmem'
    · unfold countMonsterWalls
      rcases htile : getTile d c.x c.y with _ | _ | _ | _
      · exact absurd htile hne
      · rfl
      · rfl
      · exact absurd htile hnw
    · unfold countMonsterWalls
      rcases htile : getTile d c1.x c1.y with _ | _ | _ | _
      · exact countMonsterWalls_none d rest c hmem' hne hnw
      · rfl
      · rfl
      · rw [countMonsterWalls_none d rest c hmem' hne hnw]
        rfl

theorem treasurePhase_skip_all (p : Params) (rec : SearchState → Bool × SearchState) :
    ∀ (ts : List Coordinate) (s : SearchState),
    (∀ c ∈ ts, (getTile s.diagram c.x c.y == TREASURE &&
      !(s.handledT.contains (getHashId c.x c.y))) = false) →
    treasurePhase p rec ts s = .fallthrough false s
  | [], _, _ => rfl
  | c :: rest, s, h => by
    conv_lhs => unfold treasurePhase
    rw [if_pos (by rw [h c (List.mem_cons_self _ _)]; rfl)]
    exact treasurePhase_skip_all p rec rest s
      (fun q hq => h q (List.mem_cons_of_mem _ hq))

theorem monsterPhase_skip_list (p : Params) (rec : SearchState → Bool × SearchState) :
    ∀ (pre rest : List Coordinate) (s : SearchState),
    (∀ c ∈ pre, (getTile s.diagram c.x c.y == MONSTER &&
      !(s.handledM.contains (getHashId c.x c.y))) = false) →
    monsterPhase p rec (pre ++ rest) s = monsterPhase p rec rest s
  | [], _, _, _ => rfl
  | c :: pre, rest, s, h => by
    show monsterPhase p rec (c :: (pre ++ rest)) s = _
    conv_lhs => unfold monsterPhase
    rw [if_pos (by rw [h c (List.mem_cons_self _ _)]; rfl)]
    exact monsterPhase_skip_list p rec pre rest s
      (fun q hq => h q (List.mem_cons_of_mem _ hq))

theorem monsterPhase_bad (p : Params) (rec : SearchState → Bool × SearchState)
    (c : Coordinate) (rest : List Coordinate) (s : SearchState)
    (h : (getTile s.diagram c.x c.y == MONSTER &&
      !(s.handledM.contains (getHashId c.x c.y))) = true)
    (hscan : countMonsterWalls s.diagram (get4DirectionCoords c.x c.y) = none) :
    monsterPhase p rec (c :: rest) s = .failure s := by
  conv_lhs => unfold monsterPhase
  rw [if_neg (by rw [h]; simp)]
  simp only [hscan]

/-- C10: in the monster phase, when the next unresolved monster has a
cardinal neighbour whose tile is neither empty nor wall (a treasure or
monster tile), `dfs` returns false for the branch at once, with the state
untouched and no wall assignment attempted for that monster; in particular
two cardinally adjacent unresolved monsters, or an unresolved monster beside
a treasure, fail the branch as soon as the phase reaches them. -/
theorem c10_monster_special_neighbour (p : Params) (fuel step : Nat) (s : SearchState)
    (hn : isSatisfiedProjections s.curRow s.curCol p.rowProj p.colProj = false)
    (ht : ∀ c ∈ p.treasures, (getTile s.diagram c.x c.y == TREASURE &&
      !(s.handledT.contains (getHashId c.x c.y))) = false)
    (hlen : s.handledT.length = p.treasures.length)
    (pre post : List Coordinate) (m : Coordinate) (hm : p.monsters = pre ++ m :: post)
    (hpre : ∀ c ∈ pre, (getTile s.diagram c.x c.y == MONSTER &&
      !(s.handledM.contains (getHashId c.x c.y))) = false)
    (hmon : (getTile s.diagram m.x m.y == MONSTER &&
      !(s.handledM.contains (getHashId m.x m.y))) = true)
    (q : Coordinate) (hq : q ∈ get4DirectionCoords m.x m.y)
    (hqe : getTile s.diagram q.x q.y ≠ EMPTY_SPACE)
    (hqw : getTile s.diagram q.x q.y ≠ WALL) :
    dfs p (fuel + 1) step s = (false, s) := by
  rw [dfs_not_satisfied p fuel step s hn,
    treasurePhase_skip_all p (dfs p fuel (step + 1)) p.treasures s ht]
  dsimp only
  rw [if_neg (by omega), hm,
    monsterPhase_skip_list p (dfs p fuel (step + 1)) pre (m :: post) s hpre,
    monsterPhase_bad p (dfs p fuel (step + 1)) m post s hmon
      (countMonsterWalls_none s.diagram (get4DirectionCoords m.x m.y) q hq hqe hqw)]

/-- Witness for C10: two cardinally adjacent monsters at (1,1) and (2,1) on
an otherwise empty map with unsatisfied projections make `dfs` fail at once
with the state unchanged. -/
theorem c10_monster_special_neighbour_witness :
    dfs pAdjacentMonsters 1 0 sAdjacentMonsters = (false, sAdjacentMonsters) :=
  c10_monster_special_neighbour pAdjacentMonsters 0 0 sAdjacentMonsters
    (by decide) (by decide) (by decide)
    [] [⟨2, 1⟩] ⟨1, 1⟩ (by decide) (by decide) (by decide)
    ⟨2, 1⟩ (by decide) (by decide) (by decide)

/-! C4: the always-truthy tuple disables the treasure-room pre-check in the
deficit-phase candidate scan. -/

/-- C4: on the room-with-door grid with the room committed, the deficit-phase
scan for row index 2 admits the door tile (3,4) as a wall candidate even
though placing that wall leaves the treasure without any valid room — the
`checkTreasureRooms` conjunct at main.ts:854 is the always-truthy tuple
rather than its boolean component, so the broken-room placement is not
excluded; the other two pre-checks do pass. -/
theorem c4_truthy_rooms_precheck :
    (⟨3, 4⟩ : Coordinate) ∈ (deficitScan pRoomScan 2 (List.range 8) sRoomScan).1 ∧
    (checkTreasureRooms pRoomScan.treasures (placeWall ⟨3, 4⟩ sRoomScan).diagram).1 = false ∧
    isTruthyArray (checkTreasureRooms pRoomScan.treasures
      (placeWall ⟨3, 4⟩ sRoomScan).diagram) = true ∧
    checkMonsters pRoomScan.monsters (placeWall ⟨3, 4⟩ sRoomScan).diagram = true ∧
    checkTreasuresAndMonstersConnectivity pRoomScan.treasures pRoomScan.monsters
      (placeWall ⟨3, 4⟩ sRoomScan).diagram = true := by
  refine ⟨by decide, by decide, rfl, by decide, by decide⟩

/-! Frame discipline: every non-successful path of `dfs` restores the state. -/

theorem getD_eq_getElem_of_lt {α : Type} (l : List α) (i : Nat) (d : α)
    (h : i < l.length) : l.getD i d = l[i] := by
  rw [List.getD_eq_getElem?_getD, List.getElem?_eq_getElem h]
  rfl

theorem getD_mem_of_lt {α : Type} (l : List α) (i : Nat) (d : α)
    (h : i < l.length) : l.getD i d ∈ l := by
  rw [getD_eq_getElem_of_lt l i d h]
  exact List.getElem_mem h

theorem mem_filter_empty (d : Diagram) (l : List Coordinate) (c : Coordinate)
    (h : c ∈ l.filter fun q => getTile d q.x q.y == EMPTY_SPACE) :
    getTile d c.x c.y = EMPTY_SPACE := by
  have hp := (List.mem_filter.mp h).2
  rwa [beq_iff_eq] at hp

theorem map_getD_nodup (avail : List Coordinate) (combo : List Nat)
    (hnd : avail.Nodup) (hcomb : combo.Nodup) (hbnd : ∀ a ∈ combo, a < avail.length) :
    (combo.map fun i => avail.getD i ⟨0, 0⟩).Nodup := by
  refine List.Nodup.map_on ?_ hcomb
  intro a ha b hb hfab
  rw [getD_eq_getElem_of_lt _ _ _ (hbnd a ha),
      getD_eq_getElem_of_lt _ _ _ (hbnd b hb)] at hfab
  exact (List.Nodup.getElem_inj_iff hnd).mp hfab

theorem placeAllButOne_undo (p : Params) (coords : List Coordinate) (j i : Nat)
    (s : SearchState) (hnd : coords.Nodup)
    (hemp : ∀ c ∈ coords, getTile s.diagram c.x c.y = EMPTY_SPACE) :
    undoPlaced (placeAllButOne p coords j i s).1 (placeAllButOne p coords j i s).2 = s := by
  rw [placeAllButOne_state]
  exact undoPlaced_placeSeq _ _ ((placeAllButOne_sublist p coords j i s).nodup hnd)
    (fun c hc => hemp c ((placeAllButOne_sublist p coords j i s).subset hc))

theorem tryTreasureAssign_frame (p : Params) (rec : SearchState → Bool × SearchState)
    (hash : Int) (lt : Coordinate) (escoords : List Coordinate)
    (hrec : ∀ s', (rec s').1 = false → (rec s').2 = s') :
    ∀ (is : List Nat) (sat : Bool) (s : SearchState), escoords.Nodup →
    (∀ c ∈ escoords, getTile s.diagram c.x c.y = EMPTY_SPACE) →
    ∀ (sat' : Bool) (s' : SearchState),
    tryTreasureAssign p rec hash lt escoords is sat s = .fallthrough sat' s' → s' = s
  | [], sat, s, _, _, sat', s', hres => by
    rw [tryTreasureAssign] at hres
    cases hres
    rfl
  | i :: is, sat, s, hnd, hemp, sat', s', hres => by
    rw [tryTreasureAssign] at hres
    split at hres
    · dsimp only at hres
      split at hres
      next s3 heq =>
        cases hres
      next s3 heq =>
        have h3 : s3 = { (placeAllButOne p escoords 0 i s).2 with
            handledT := (placeAllButOne p escoords 0 i s).2.handledT ++ [hash],
            roomLTs := (placeAllButOne p escoords 0 i s).2.roomLTs ++ [lt] } := by
          have hr := hrec _ (by rw [heq])
          rw [heq] at hr
          exact hr
        have h4 : ({ diagram := s3.diagram, curRow := s3.curRow, curCol := s3.curCol,
                     handledT := s3.handledT.dropLast, handledM := s3.handledM,
                     roomLTs := s3.roomLTs.dropLast } : SearchState) =
            (placeAllButOne p escoords 0 i s).2 := by
          rw [h3]
          simp [List.dropLast_concat]
        rw [h4, placeAllButOne_undo p escoords 0 i s hnd hemp] at hres
        exact tryTreasureAssign_frame p rec hash lt escoords hrec is true s hnd hemp sat' s' hres
    · rw [placeAllButOne_undo p escoords 0 i s hnd hemp] at hres
      exact tryTreasureAssign_frame p rec hash lt escoords hrec is sat s hnd hemp sat' s' hres

theorem tryMonsterAssign_frame (p : Params) (rec : SearchState → Bool × SearchState)
    (hash : Int) (escoords : List Coordinate)
    (hrec : ∀ s', (rec s').1 = false → (rec s').2 = s') :
    ∀ (is : List Nat) (sat : Bool) (s : SearchState), escoords.Nodup →
    (∀ c ∈ escoords, getTile s.diagram c.x c.y = EMPTY_SPACE) →
    ∀ (sat' : Bool) (s' : SearchState),
    tryMonsterAssign p rec hash escoords is sat s = .fallthrough sat' s' → s' = s
  | [], sat, s, _, _, sat', s', hres => by
    rw [tryMonsterAssign] at hres
    cases hres
    rfl
  | i :: is, sat, s, hnd, hemp, sat', s', hres => by
    rw [tryMonsterAssign] at hres
    split at hres
    · dsimp only at hres
      split at hres
      next s3 heq =>
        cases hres
      next s3 heq =>
        have h3 : s3 = { (placeAllButOne p escoords 0 i s).2 with
            handledM := (placeAllButOne p escoords 0 i s).2.handledM ++ [hash] } := by
          have hr := hrec _ (by rw [heq])
          rw [heq] at hr
          exact hr
        have h4 : ({ diagram := s3.diagram, curRow := s3.curRow, curCol := s3.curCol,
                     handledT := s3.handledT, handledM := s3.handledM.dropLast,
                     roomLTs := s3.roomLTs } : SearchState) =
            (placeAllButOne p escoords 0 i s).2 := by
          rw [h3]
          simp [List.dropLast_concat]
        rw [h4, placeAllButOne_undo p escoords 0 i s hnd hemp] at hres
        exact tryMonsterAssign_frame p rec hash escoords hrec is true s hnd hemp sat' s' hres
    · rw [placeAllButOne_undo p escoords 0 i s hnd hemp] at hres
      exact tryMonsterAssign_frame p rec hash escoords hrec is sat s hnd hemp sat' s' hres








theorem tryTreasureRooms_frame (p : Params) (rec : SearchState → Bool × SearchState)
    (hash : Int) (hrec : ∀ s', (rec s').1 = false → (rec s').2 = s') :
    ∀ (lts : List Coordinate) (sat : Bool) (s : SearchState)
      (sat' : Bool) (s' : SearchState),
    tryTreasureRooms p rec hash lts sat s = .fallthrough sat' s' → s' = s
  | [], sat, s, sat', s', hres => by
    rw [tryTreasureRooms] at hres
    cases hres
    rfl
  | lt :: lts, sat, s, sat', s', hres => by
    rw [tryTreasureRooms] at hres
    dsimp only at hres
    split at hres
    · exact tryTreasureRooms_frame p rec hash hrec lts sat s sat' s' hres
    · split at hres
      · exact tryTreasureRooms_frame p rec hash hrec lts sat s sat' s' hres
      · split at hres
        · exact tryTreasureRooms_frame p rec hash hrec lts sat s sat' s' hres
        · split at hres
          · cases hres
          · split at hres
            next sF heq => cases hres
            next sF heq => cases hres
            next sat1 s1 heq =>
              have h1 : s1 = s :=
                tryTreasureAssign_frame p rec hash lt
                  ((getTRoomOuterTileCoords lt.x lt.y).filter fun c =>
                    getTile s.diagram c.x c.y == EMPTY_SPACE)
                  hrec _ sat s
                  ((getTRoomOuterTileCoords_nodup lt.x lt.y).filter _)
                  (fun c hc => mem_filter_empty s.diagram _ c hc) sat1 s1 heq
              rw [← h1]
              exact tryTreasureRooms_frame p rec hash hrec lts sat1 s1 sat' s' hres

theorem treasurePhase_frame (p : Params) (rec : SearchState → Bool × SearchState)
    (hrec : ∀ s', (rec s').1 = false → (rec s').2 = s') :
    ∀ (ts : List Coordinate) (s : SearchState) (sat' : Bool) (s' : SearchState),
    treasurePhase p rec ts s = .fallthrough sat' s' → s' = s
  | [], s, sat', s', hres => by
    rw [treasurePhase] at hres
    cases hres
    rfl
  | c :: rest, s, sat', s', hres => by
    rw [treasurePhase] at hres
    split at hres
    · exact treasurePhase_frame p rec hrec rest s sat' s' hres
    · split at hres
      next sF heq => cases hres
      next sF heq => cases hres
      next sat1 s1 heq =>
        have h1 : s1 = s :=
          tryTreasureRooms_frame p rec (getHashId c.x c.y) hrec
            (getTRoomLTCoords c.x c.y) false s sat1 s1 heq
        split at hres
        · rw [← h1]
          exact treasurePhase_frame p rec hrec rest s1 sat' s' hres
        · cases hres

theorem monsterPhase_frame (p : Params) (rec : SearchState → Bool × SearchState)
    (hrec : ∀ s', (rec s').1 = false → (rec s').2 = s') :
    ∀ (ms : List Coordinate) (s : SearchState) (sat' : Bool) (s' : SearchState),
    monsterPhase p rec ms s = .fallthrough sat' s' → s' = s
  | [], s, sat', s', hres => by
    rw [monsterPhase] at hres
    cases hres
    rfl
  | c :: rest, s, sat', s', hres => by
    rw [monsterPhase] at hres
    split at hres
    · exact monsterPhase_frame p rec hrec rest s sat' s' hres
    · dsimp only at hres
      split at hres
      next heq => cases hres
      next nwalls heq =>
        split at hres
        · cases hres
        · split at hres
          next sF heq2 => cases hres
          next sF heq2 => cases hres
          next sat1 s1 heq2 =>
            have h1 : s1 = s :=
              tryMonsterAssign_frame p rec (getHashId c.x c.y)
                ((get4DirectionCoords c.x c.y).filter fun q =>
                  getTile s.diagram q.x q.y == EMPTY_SPACE)
                hrec _ false s
                ((get4DirectionCoords_nodup c.x c.y).filter _)
                (fun q hq => mem_filter_empty s.diagram _ q hq) sat1 s1 heq2
            split at hres
            · rw [← h1]
              exact monsterPhase_frame p rec hrec rest s1 sat' s' hres
            · cases hres

theorem not_bang_eq_true {b : Bool} (h : ¬((!b) = true)) : b = true := by
  cases b
  · exact absurd rfl h
  · rfl

theorem tryTreasureAssign_ne_failure (p : Params) (rec : SearchState → Bool × SearchState)
    (hash : Int) (lt : Coordinate) (escoords : List Coordinate) :
    ∀ (is : List Nat) (sat : Bool) (s sF : SearchState),
    tryTreasureAssign p rec hash lt escoords is sat s ≠ .failure sF
  | [], sat, s, sF, hres => by
    rw [tryTreasureAssign] at hres
    cases hres
  | i :: is, sat, s, sF, hres => by
    rw [tryTreasureAssign] at hres
    split at hres
    · dsimp only at hres
      split at hres
      next s3 heq => cases hres
      next s3 heq => exact tryTreasureAssign_ne_failure p rec hash lt escoords is true _ sF hres
    · exact tryTreasureAssign_ne_failure p rec hash lt escoords is sat _ sF hres

theorem tryMonsterAssign_ne_failure (p : Params) (rec : SearchState → Bool × SearchState)
    (hash : Int) (escoords : List Coordinate) :
    ∀ (is : List Nat) (sat : Bool) (s sF : SearchState),
    tryMonsterAssign p rec hash escoords is sat s ≠ .failure sF
  | [], sat, s, sF, hres => by
    rw [tryMonsterAssign] at hres
    cases hres
  | i :: is, sat, s, sF, hres => by
    rw [tryMonsterAssign] at hres
    split at hres
    · dsimp only at hres
      split at hres
      next s3 heq => cases hres
      next s3 heq => exact tryMonsterAssign_ne_failure p rec hash escoords is true _ sF hres
    · exact tryMonsterAssign_ne_failure p rec hash escoords is sat _ sF hres

theorem tryTreasureRooms_failure (p : Params) (rec : SearchState → Bool × SearchState)
    (hash : Int) (hrec : ∀ s', (rec s').1 = false → (rec s').2 = s') :
    ∀ (lts : List Coordinate) (sat : Bool) (s sF : SearchState),
    tryTreasureRooms p rec hash lts sat s = .failure sF → sF = s
  | [], sat, s, sF, hres => by
    rw [tryTreasureRooms] at hres
    cases hres
  | lt :: lts, sat, s, sF, hres => by
    rw [tryTreasureRooms] at hres
    dsimp only at hres
    split at hres
    · exact tryTreasureRooms_failure p rec hash hrec lts sat s sF hres
    · split at hres
      · exact tryTreasureRooms_failure p rec hash hrec lts sat s sF hres
      · split at hres
        · exact tryTreasureRooms_failure p rec hash hrec lts sat s sF hres
        · split at hres
          · injection hres with h2
            exact h2.symm
          · split at hres
            next sH heq => cases hres
            next sH heq => exact absurd heq (tryTreasureAssign_ne_failure p rec hash lt _ _ _ _ sH)
            next sat1 s1 heq =>
              have h1 : s1 = s :=
                tryTreasureAssign_frame p rec hash lt
                  ((getTRoomOuterTileCoords lt.x lt.y).filter fun c =>
                    getTile s.diagram c.x c.y == EMPTY_SPACE)
                  hrec _ sat s
                  ((getTRoomOuterTileCoords_nodup lt.x lt.y).filter _)
                  (fun c hc => mem_filter_empty s.diagram _ c hc) sat1 s1 heq
              rw [← h1]
              exact tryTreasureRooms_failure p rec hash hrec lts sat1 s1 sF hres

theorem treasurePhase_failure (p : Params) (rec : SearchState → Bool × SearchState)
    (hrec : ∀ s', (rec s').1 = false → (rec s').2 = s') :
    ∀ (ts : List Coordinate) (s sF : SearchState),
    treasurePhase p rec ts s = .failure sF → sF = s
  | [], s, sF, hres => by
    rw [treasurePhase] at hres
    cases hres
  | c :: rest, s, sF, hres => by
    rw [treasurePhase] at hres
    split at hres
    · exact treasurePhase_failure p rec hrec rest s sF hres
    · split at hres
      next sH heq => cases hres
      next sH heq =>
        injection hres with h2
        rw [← h2]
        exact tryTreasureRooms_failure p rec (getHashId c.x c.y) hrec
          (getTRoomLTCoords c.x c.y) false s sH heq
      next sat1 s1 heq =>
        have h1 : s1 = s :=
          tryTreasureRooms_frame p rec (getHashId c.x c.y) hrec
            (getTRoomLTCoords c.x c.y) false s sat1 s1 heq
        split at hres
        · rw [← h1]
          exact treasurePhase_failure p rec hrec rest s1 sF hres
        · injection hres with h2
          rw [← h2]
          exact h1

theorem monsterPhase_failure (p : Params) (rec : SearchState → Bool × SearchState)
    (hrec : ∀ s', (rec s').1 = false → (rec s').2 = s') :
    ∀ (ms : List Coordinate) (s sF : SearchState),
    monsterPhase p rec ms s = .failure sF → sF = s
  | [], s, sF, hres => by
    rw [monsterPhase] at hres
    cases hres
  | c :: rest, s, sF, hres => by
    rw [monsterPhase] at hres
    split at hres
    · exact monsterPhase_failure p rec hrec rest s sF hres
    · dsimp only at hres
      split at hres
      next heq =>
        injection hres with h2
        exact h2.symm
      next nwalls heq =>
        split at hres
        · injection hres with h2
          exact h2.symm
        · split at hres
          next sH heq2 => cases hres
          next sH heq2 => exact absurd heq2 (tryMonsterAssign_ne_failure p rec _ _ _ _ _ sH)
          next sat1 s1 heq2 =>
            have h1 : s1 = s :=
              tryMonsterAssign_frame p rec (getHashId c.x c.y)
                ((get4DirectionCoords c.x c.y).filter fun q =>
                  getTile s.diagram q.x q.y == EMPTY_SPACE)
                hrec _ false s
                ((get4DirectionCoords_nodup c.x c.y).filter _)
                (fun q hq => mem_filter_empty s.diagram _ q hq) sat1 s1 heq2
            split at hres
            · rw [← h1]
              exact monsterPhase_failure p rec hrec rest s1 sF hres
            · injection hres with h2
              rw [← h2]
              exact h1

theorem deficitScan_spec (p : Params) (ri : Nat) :
    ∀ (cols : List Nat) (s : SearchState),
    (deficitScan p ri cols s).2 = s ∧
    (∀ c ∈ (deficitScan p ri cols s).1, getTile s.diagram c.x c.y = EMPTY_SPACE) ∧
    ((deficitScan p ri cols s).1.map fun c => c.y).Sublist
      (cols.map fun ci : Nat => (ci : Int) + 1)
  | [], s => by
    rw [deficitScan]
    exact ⟨rfl, by simp, by simp⟩
  | ci :: rest, s => by
    rw [deficitScan]
    dsimp only
    split
    · obtain ⟨ih1, ih2, ih3⟩ := deficitScan_spec p ri rest s
      exact ⟨ih1, ih2, List.Sublist.cons _ ih3⟩
    · split
      · obtain ⟨ih1, ih2, ih3⟩ := deficitScan_spec p ri rest s
        exact ⟨ih1, ih2, List.Sublist.cons _ ih3⟩
      next h2 =>
        have hc := not_bang_eq_true h2
        simp only [Bool.and_eq_true, beq_iff_eq] at hc
        have hs2 : unplaceWall ⟨(ri : Int) + 1, (ci : Int) + 1⟩
            (placeWall ⟨(ri : Int) + 1, (ci : Int) + 1⟩ s) = s :=
          unplace_place _ s hc.1.1
        rw [hs2]
        obtain ⟨ih1, ih2, ih3⟩ := deficitScan_spec p ri rest s
        refine ⟨ih1, ?_, ?_⟩
        · intro c hcmem
          rcases List.mem_append.mp hcmem with hl | hr
          · split at hl
            · rw [List.mem_singleton] at hl
              rw [hl]
              exact hc.1.1
            · cases hl
          · exact ih2 c hr
        · rw [List.map_append, List.map_cons]
          split
          · simp only [List.map_cons, List.map_nil, List.singleton_append]
            exact List.Sublist.cons₂ _ ih3
          · simp only [List.map_nil, List.nil_append]
            exact List.Sublist.cons _ ih3

theorem tryCombos_ne_failure (p : Params) (rec : SearchState → Bool × SearchState)
    (avail : List Coordinate) :
    ∀ (combos : List (List Nat)) (sat : Bool) (s sF : SearchState),
    tryCombos p rec avail combos sat s ≠ .failure sF
  | [], sat, s, sF, hres => by
    rw [tryCombos] at hres
    cases hres
  | combo :: rest, sat, s, sF, hres => by
    rw [tryCombos] at hres
    split at hres
    · split at hres
      next sH heq => cases hres
      next s2 heq => exact tryCombos_ne_failure p rec avail rest true _ sF hres
    · exact tryCombos_ne_failure p rec avail rest sat _ sF hres

theorem tryCombos_frame (p : Params) (rec : SearchState → Bool × SearchState)
    (avail : List Coordinate)
    (hrec : ∀ s', (rec s').1 = false → (rec s').2 = s')
    (hnd : avail.Nodup) :
    ∀ (combos : List (List Nat)) (sat : Bool) (s : SearchState),
    (∀ c ∈ avail, getTile s.diagram c.x c.y = EMPTY_SPACE) →
    (∀ combo ∈ combos, combo.Nodup ∧ ∀ a ∈ combo, a < avail.length) →
    ∀ (sat' : Bool) (s' : SearchState),
    tryCombos p rec avail combos sat s = .fallthrough sat' s' → s' = s
  | [], sat, s, _, _, sat', s', hres => by
    rw [tryCombos] at hres
    cases hres
    rfl
  | combo :: rest, sat, s, hemp, hcombos, sat', s', hres => by
    rw [tryCombos] at hres
    have hcnd := (hcombos combo (List.mem_cons_self _ _)).1
    have hcbd := (hcombos combo (List.mem_cons_self _ _)).2
    have hundo : undoPlaced (combo.map fun i => avail.getD i ⟨0, 0⟩)
        (placeCombo avail combo s) = s := by
      rw [placeCombo_eq]
      exact undoPlaced_placeSeq _ s (map_getD_nodup avail combo hnd hcnd hcbd)
        (fun c hcmem => by
          obtain ⟨i, hi, rfl⟩ := List.mem_map.mp hcmem
          exact hemp _ (getD_mem_of_lt avail i _ (hcbd i hi)))
    split at hres
    · split at hres
      next sH heq => cases hres
      next s2 heq =>
        have h2 : s2 = placeCombo avail combo s := by
          have hr := hrec _ (by rw [heq])
          rw [heq] at hr
          exact hr
        rw [h2, hundo] at hres
        exact tryCombos_frame p rec avail hrec hnd rest true s hemp
          (fun cb hcb => hcombos cb (List.mem_cons_of_mem _ hcb)) sat' s' hres
    · rw [hundo] at hres
      exact tryCombos_frame p rec avail hrec hnd rest sat s hemp
        (fun cb hcb => hcombos cb (List.mem_cons_of_mem _ hcb)) sat' s' hres

theorem deficitPhase_frame (p : Params) (rec : SearchState → Bool × SearchState)
    (hrec : ∀ s', (rec s').1 = false → (rec s').2 = s') :
    ∀ (rows : List Nat) (s : SearchState) (s' : SearchState),
    deficitPhase p rec rows s = (false, s') → s' = s
  | [], s, s', hres => by
    rw [deficitPhase] at hres
    injection hres with h1 h2
    exact h2.symm
  | ri :: rest, s, s', hres => by
    rw [deficitPhase] at hres
    dsimp only at hres
    split at hres
    · exact deficitPhase_frame p rec hrec rest s s' hres
    · obtain ⟨hsc1, hsc2, hsc3⟩ := deficitScan_spec p ri (List.range s.curCol.length) s
      split at hres
      · injection hres with h1 h2
        rw [← h2]
        exact hsc1
      · split at hres
        next sF heq =>
          injection hres with h1 h2
          exact Bool.noConfusion h1
        next sF heq =>
          exact absurd heq (tryCombos_ne_failure p rec _ _ false _ sF)
        next sat1 s1 heq =>
          have hnr : ((List.range s.curCol.length).map fun ci : Nat => (ci : Int) + 1).Nodup :=
            (List.nodup_range _).map (fun a b hab => by omega)
          have hand : (deficitScan p ri (List.range s.curCol.length) s).1.Nodup :=
            List.Nodup.of_map _ (hsc3.nodup hnr)
          have h1 : s1 = (deficitScan p ri (List.range s.curCol.length) s).2 :=
            tryCombos_frame p rec _ hrec hand _ false _
              (fun c hcm => by
                rw [hsc1]
                exact hsc2 c hcm)
              (fun cb hcb => ⟨getCombinations_mem_nodup _ _ cb hcb,
                (getCombinations_mem _ _ cb hcb).2.2⟩) sat1 s1 heq
          split at hres
          · rw [deficitPhase_frame p rec hrec rest s1 s' hres, h1]
            exact hsc1
          · injection hres with h1' h2'
            rw [← h2', h1]
            exact hsc1

theorem dfs_frame (p : Params) :
    ∀ (fuel step : Nat) (s : SearchState) (s' : SearchState),
    dfs p fuel step s = (false, s') → s' = s
  | 0, step, s, s', hres => by
    rw [dfs_zero] at hres
    injection hres with h1 h2
    exact h2.symm
  | fuel + 1, step, s, s', hres => by
    have hrec : ∀ t, (dfs p fuel (step + 1) t).1 = false →
        (dfs p fuel (step + 1) t).2 = t := by
      intro t h1
      apply dfs_frame p fuel (step + 1) t
      rw [← h1]
    by_cases hsat : isSatisfiedProjections s.curRow s.curCol p.rowProj p.colProj = true
    · rw [dfs_satisfied p fuel step s hsat] at hres
      injection hres with h1 h2
      exact h2.symm
    · rw [dfs_not_satisfied p fuel step s (Bool.eq_false_iff.mpr hsat)] at hres
      split at hres
      next sF heq =>
        injection hres with h1 h2
        exact Bool.noConfusion h1
      next sF heq =>
        injection hres with h1 h2
        rw [← h2]
        exact treasurePhase_failure p _ hrec p.treasures s sF heq
      next sat1 s1 heq =>
        have hs1 : s1 = s := treasurePhase_frame p _ hrec p.treasures s sat1 s1 heq
        split at hres
        · injection hres with h1 h2
          rw [← h2]
          exact hs1
        · split at hres
          next sF heq2 =>
            injection hres with h1 h2
            exact Bool.noConfusion h1
          next sF heq2 =>
            injection hres with h1 h2
            rw [← h2, monsterPhase_failure p _ hrec p.monsters s1 sF heq2]
            exact hs1
          next sat2 s2 heq2 =>
            have hs2 : s2 = s1 := monsterPhase_frame p _ hrec p.monsters s1 sat2 s2 heq2
            split at hres
            · injection hres with h1 h2
              rw [← h2, hs2]
              exact hs1
            · have h3 : s' = s2 :=
                deficitPhase_frame p _ hrec (List.range s2.curRow.length) s2 s' hres
              rw [h3, hs2]
              exact hs1

/-! Wall-count/counter difference machinery: every guarded placement raises a
row and a column wall count together with the matching counters, so the
per-line differences are invariant across the search. -/

theorem countP_congr_list {α : Type} (l : List α) (f g : α → Bool)
    (h : ∀ a ∈ l, f a = g a) : l.countP f = l.countP g := by
  induction l with
  | nil => rfl
  | cons a t ih =>
    rw [List.countP_cons, List.countP_cons, h a (List.mem_cons_self _ _),
        ih (fun b hb => h b (List.mem_cons_of_mem _ hb))]

theorem countP_flip {α : Type} (l : List α) (f g : α → Bool) (j0 : α)
    (hnd : l.Nodup) (hmem : j0 ∈ l) (hf : f j0 = true) (hg : g j0 = false)
    (hagree : ∀ j ∈ l, j ≠ j0 → f j = g j) :
    l.countP f = l.countP g + 1 := by
  induction l with
  | nil => cases hmem
  | cons a t ih =>
    rw [List.countP_cons, List.countP_cons]
    rcases List.mem_cons.mp hmem with rfl | hmt
    · have hnot : j0 ∉ t := (List.nodup_cons.mp hnd).1
      have ht : t.countP f = t.countP g :=
        countP_congr_list t f g (fun b hb =>
          hagree b (List.mem_cons_of_mem _ hb) (fun he => hnot (he ▸ hb)))
      simp [hf, hg, ht]
    · have ha : a ≠ j0 := fun he => (List.nodup_cons.mp hnd).1 (he ▸ hmt)
      have hfa : f a = g a := hagree a (List.mem_cons_self _ _) ha
      have iht := ih (List.nodup_cons.mp hnd).2 hmt
        (fun j hj hne => hagree j (List.mem_cons_of_mem _ hj) hne)
      rw [hfa, iht]
      ring

theorem getTile_setTile_same (d : Diagram) (x y : Int) (v : TileType)
    (hx : 0 ≤ x) (hy : 0 ≤ y) (hxl : x.toNat < d.length)
    (hyl : y.toNat < (d.getD x.toNat []).length) :
    getTile (setTile x y v d) x y = v := by
  rw [setTile_pos _ _ _ _ ⟨hx, hy⟩, getTile_pos _ _ _ ⟨hx, hy⟩,
      getD_set_self _ _ _ _ hxl, getD_set_self _ _ _ _ hyl]

theorem getTile_setTile_ne (d : Diagram) (x y x' y' : Int) (v : TileType)
    (h : ¬(x' = x ∧ y' = y)) :
    getTile (setTile x y v d) x' y' = getTile d x' y' := by
  by_cases hpos : 0 ≤ x ∧ 0 ≤ y
  · by_cases hpos' : 0 ≤ x' ∧ 0 ≤ y'
    · rw [setTile_pos _ _ _ _ hpos, getTile_pos _ _ _ hpos', getTile_pos _ _ _ hpos']
      by_cases hxn : x'.toNat = x.toNat
      · have hxx : x' = x := by omega
        have hyy : y' ≠ y := fun hy => h ⟨hxx, hy⟩
        have hyn : y'.toNat ≠ y.toNat := by omega
        by_cases hlen : x.toNat < d.length
        · rw [hxn, getD_set_self _ _ _ _ hlen, getD_set_ne _ _ _ _ _ (Ne.symm hyn)]
        · rw [List.set_eq_of_length_le (Nat.le_of_not_lt hlen)]
      · rw [getD_set_ne _ _ _ _ _ (Ne.symm hxn)]
    · rw [getTile_neg _ _ _ hpos', getTile_neg _ _ _ hpos']
  · rw [setTile_neg _ _ _ _ hpos]

theorem getTile_placeWall_ne (c c' : Coordinate) (s : SearchState) (h : c' ≠ c) :
    getTile (placeWall c s).diagram c'.x c'.y = getTile s.diagram c'.x c'.y := by
  have hne : ¬(c'.x = c.x ∧ c'.y = c.y) := by
    intro hc
    apply h
    cases c
    cases c'
    simp_all
  exact getTile_setTile_ne s.diagram c.x c.y c'.x c'.y WALL hne

theorem isTilePlacable_bounds (a b : Int) (cr cc rp cp : List Int)
    (h : isTilePlacable a b cr cc rp cp = true) :
    0 ≤ a ∧ a < (cr.length : Int) ∧ 0 ≤ b ∧ b < (cc.length : Int) := by
  unfold isTilePlacable at h
  split at h
  next hcond => exact ⟨hcond.1, hcond.2.1, hcond.2.2.2.1, hcond.2.2.2.2.1⟩
  next => cases h

theorem setTile_WF (d : Diagram) (x y : Int) (v : TileType)
    (hd : d.length = 10) (hrows : ∀ row ∈ d, row.length = 10) :
    (setTile x y v d).length = 10 ∧ ∀ row ∈ setTile x y v d, row.length = 10 := by
  unfold setTile
  split
  · refine ⟨by simp [hd], ?_⟩
    intro row hrow
    by_cases hxl : x.toNat < d.length
    · rcases List.mem_or_eq_of_mem_set hrow with hmem | hrw
      · exact hrows row hmem
      · rw [hrw, List.length_set]
        exact hrows _ (getD_mem_of_lt d x.toNat [] hxl)
    · rw [List.set_eq_of_length_le (Nat.le_of_not_lt hxl)] at hrow
      exact hrows _ hrow
  · exact ⟨hd, hrows⟩

theorem placeWall_WF (c : Coordinate) (s : SearchState) (h : WFState s) :
    WFState (placeWall c s) := by
  obtain ⟨h1, h2, h3, h4⟩ := h
  have hst := setTile_WF s.diagram c.x c.y WALL h3 h4
  exact ⟨by simp [placeWall, length_incProj, h1],
    by simp [placeWall, length_incProj, h2], hst.1, hst.2⟩

theorem DiffPres_refl (s : SearchState) : DiffPres s s :=
  ⟨fun _ _ => rfl, fun _ _ => rfl⟩

theorem DiffPres_trans (s t u : SearchState) (h1 : DiffPres s t) (h2 : DiffPres t u) :
    DiffPres s u :=
  ⟨fun i hi => (h2.1 i hi).trans (h1.1 i hi), fun i hi => (h2.2 i hi).trans (h1.2 i hi)⟩

theorem placeWall_diff (c : Coordinate) (s : SearchState)
    (h1 : s.curRow.length = 8) (h2 : s.curCol.length = 8)
    (h3 : s.diagram.length = 10) (h4 : ∀ row ∈ s.diagram, row.length = 10)
    (hx : 1 ≤ c.x ∧ c.x ≤ 8) (hy : 1 ≤ c.y ∧ c.y ≤ 8)
    (hemp : getTile s.diagram c.x c.y = EMPTY_SPACE) :
    DiffPres s (placeWall c s) := by
  have hrowlen : (s.diagram.getD c.x.toNat []).length = 10 :=
    h4 _ (getD_mem_of_lt s.diagram c.x.toNat [] (by omega))
  constructor
  · intro i hi
    by_cases hrow : (i : Int) + 1 = c.x
    · have hcnt : rowWalls (placeWall c s).diagram i = rowWalls s.diagram i + 1 := by
        unfold rowWalls
        simp only [placeWall]
        apply countP_flip (List.range 8) _ _ (c.y - 1).toNat (List.nodup_range 8)
          (List.mem_range.mpr (by omega))
        · have hj : ((c.y - 1).toNat : Int) + 1 = c.y := by omega
          rw [hj, hrow, getTile_setTile_same s.diagram c.x c.y WALL (by omega) (by omega)
            (by omega) (by omega)]
          rfl
        · have hj : ((c.y - 1).toNat : Int) + 1 = c.y := by omega
          rw [hj, hrow, hemp]
          rfl
        · intro j hj hne
          have hnej : ¬(((i : Int) + 1) = c.x ∧ ((j : Int) + 1) = c.y) := by
            intro hcc
            apply hne
            have := hcc.2
            omega
          rw [getTile_setTile_ne s.diagram c.x c.y _ _ WALL hnej]
      have hctr : (placeWall c s).curRow.getD i 0 = s.curRow.getD i 0 + 1 := by
        show (incProj s.curRow (c.x - 1)).getD i 0 = _
        rw [incProj_pos _ _ (by omega)]
        have hidx : (c.x - 1).toNat = i := by omega
        rw [hidx, getD_set_self _ _ _ _ (by omega)]
      rw [hcnt, hctr]
      push_cast
      ring
    · have hcnt : rowWalls (placeWall c s).diagram i = rowWalls s.diagram i := by
        unfold rowWalls
        simp only [placeWall]
        apply countP_congr_list
        intro j hj
        rw [getTile_setTile_ne s.diagram c.x c.y _ _ WALL (fun hh => hrow hh.1)]
      have hctr : (placeWall c s).curRow.getD i 0 = s.curRow.getD i 0 := by
        show (incProj s.curRow (c.x - 1)).getD i 0 = _
        rw [incProj_pos _ _ (by omega)]
        exact getD_set_ne _ _ _ _ _ (by omega)
      rw [hcnt, hctr]
  · intro i hi
    by_cases hcol : (i : Int) + 1 = c.y
    · have hcnt : colWalls (placeWall c s).diagram i = colWalls s.diagram i + 1 := by
        unfold colWalls
        simp only [placeWall]
        apply countP_flip (List.range 8) _ _ (c.x - 1).toNat (List.nodup_range 8)
          (List.mem_range.mpr (by omega))
        · have hj : ((c.x - 1).toNat : Int) + 1 = c.x := by omega
          rw [hj, hcol, getTile_setTile_same s.diagram c.x c.y WALL (by omega) (by omega)
            (by omega) (by omega)]
          rfl
        · have hj : ((c.x - 1).toNat : Int) + 1 = c.x := by omega
          rw [hj, hcol, hemp]
          rfl
        · intro j hj hne
          have hnej : ¬(((j : Int) + 1) = c.x ∧ ((i : Int) + 1) = c.y) := by
            intro hcc
            apply hne
            have := hcc.1
            omega
          rw [getTile_setTile_ne s.diagram c.x c.y _ _ WALL hnej]
      have hctr : (placeWall c s).curCol.getD i 0 = s.curCol.getD i 0 + 1 := by
        show (incProj s.curCol (c.y - 1)).getD i 0 = _
        rw [incProj_pos _ _ (by omega)]
        have hidx : (c.y - 1).toNat = i := by omega
        rw [hidx, getD_set_self _ _ _ _ (by omega)]
      rw [hcnt, hctr]
      push_cast
      ring
    · have hcnt : colWalls (placeWall c s).diagram i = colWalls s.diagram i := by
        unfold colWalls
        simp only [placeWall]
        apply countP_congr_list
        intro j hj
        rw [getTile_setTile_ne s.diagram c.x c.y _ _ WALL (fun hh => hcol hh.2)]
      have hctr : (placeWall c s).curCol.getD i 0 = s.curCol.getD i 0 := by
        show (incProj s.curCol (c.y - 1)).getD i 0 = _
        rw [incProj_pos _ _ (by omega)]
        exact getD_set_ne _ _ _ _ _ (by omega)
      rw [hcnt, hctr]

theorem placeAllButOne_diff (p : Params) :
    ∀ (coords : List Coordinate) (j i : Nat) (s : SearchState), coords.Nodup →
    (∀ c ∈ coords, getTile s.diagram c.x c.y = EMPTY_SPACE) → WFState s →
    WFState (placeAllButOne p coords j i s).2 ∧ DiffPres s (placeAllButOne p coords j i s).2
  | [], _, _, s, _, _, hWF => ⟨hWF, DiffPres_refl s⟩
  | c :: rest, j, i, s, hnd, hemp, hWF => by
    by_cases hj : j = i
    · rw [placeAllButOne_skip p c rest j i s hj]
      exact placeAllButOne_diff p rest (j + 1) i s (List.nodup_cons.mp hnd).2
        (fun q hq => hemp q (List.mem_cons_of_mem _ hq)) hWF
    · by_cases hp : isTilePlacable (c.x - 1) (c.y - 1) s.curRow s.curCol p.rowProj p.colProj = true
      · rw [placeAllButOne_place p c rest j i s hj hp]
        obtain ⟨hb1, hb2, hb3, hb4⟩ := isTilePlacable_bounds _ _ _ _ _ _ hp
        obtain ⟨hw1, hw2, hw3, hw4⟩ := hWF
        rw [hw1] at hb2
        rw [hw2] at hb4
        have hx : 1 ≤ c.x ∧ c.x ≤ 8 := by constructor <;> omega
        have hy : 1 ≤ c.y ∧ c.y ≤ 8 := by constructor <;> omega
        have hdiff := placeWall_diff c s hw1 hw2 hw3 hw4 hx hy (hemp c (List.mem_cons_self _ _))
        have hWF' := placeWall_WF c s ⟨hw1, hw2, hw3, hw4⟩
        have hemp' : ∀ q ∈ rest, getTile (placeWall c s).diagram q.x q.y = EMPTY_SPACE := by
          intro q hq
          rw [getTile_placeWall_ne c q s (fun he => (List.nodup_cons.mp hnd).1 (he ▸ hq))]
          exact hemp q (List.mem_cons_of_mem _ hq)
        obtain ⟨ihWF, ihD⟩ := placeAllButOne_diff p rest (j + 1) i (placeWall c s)
          (List.nodup_cons.mp hnd).2 hemp' hWF'
        exact ⟨ihWF, DiffPres_trans s (placeWall c s) _ hdiff ihD⟩
      · rw [placeAllButOne_stop p c rest j i s hj hp]
        exact ⟨hWF, DiffPres_refl s⟩

theorem placeSeq_diff :
    ∀ (cs : List Coordinate) (s : SearchState), cs.Nodup →
    (∀ c ∈ cs, getTile s.diagram c.x c.y = EMPTY_SPACE ∧
      (1 ≤ c.x ∧ c.x ≤ 8) ∧ (1 ≤ c.y ∧ c.y ≤ 8)) →
    WFState s → WFState (placeSeq cs s) ∧ DiffPres s (placeSeq cs s)
  | [], s, _, _, hWF => ⟨hWF, DiffPres_refl s⟩
  | c :: cs, s, hnd, hprop, hWF => by
    show WFState (placeSeq cs (placeWall c s)) ∧ DiffPres s (placeSeq cs (placeWall c s))
    obtain ⟨hce, hcx, hcy⟩ := hprop c (List.mem_cons_self _ _)
    obtain ⟨hw1, hw2, hw3, hw4⟩ := hWF
    have hdiff := placeWall_diff c s hw1 hw2 hw3 hw4 hcx hcy hce
    have hWF' := placeWall_WF c s ⟨hw1, hw2, hw3, hw4⟩
    have hprop' : ∀ q ∈ cs, getTile (placeWall c s).diagram q.x q.y = EMPTY_SPACE ∧
        (1 ≤ q.x ∧ q.x ≤ 8) ∧ (1 ≤ q.y ∧ q.y ≤ 8) := by
      intro q hq
      refine ⟨?_, (hprop q (List.mem_cons_of_mem _ hq)).2.1,
        (hprop q (List.mem_cons_of_mem _ hq)).2.2⟩
      rw [getTile_placeWall_ne c q s (fun he => (List.nodup_cons.mp hnd).1 (he ▸ hq))]
      exact (hprop q (List.mem_cons_of_mem _ hq)).1
    obtain ⟨ihWF, ihD⟩ := placeSeq_diff cs (placeWall c s) (List.nodup_cons.mp hnd).2 hprop' hWF'
    exact ⟨ihWF, DiffPres_trans s (placeWall c s) _ hdiff ihD⟩

theorem deficitScan_coords (p : Params) (ri : Nat) :
    ∀ (cols : List Nat) (s : SearchState),
    ∀ c ∈ (deficitScan p ri cols s).1, c.x = (ri : Int) + 1 ∧
      ∃ ci ∈ cols, c.y = (ci : Int) + 1
  | [], s => by
    rw [deficitScan]
    intro c hc
    cases hc
  | ci :: rest, s => by
    rw [deficitScan]
    dsimp only
    split
    · intro c hc
      obtain ⟨hx, ci', hci', hy⟩ := deficitScan_coords p ri rest s c hc
      exact ⟨hx, ci', List.mem_cons_of_mem _ hci', hy⟩
    · split
      · intro c hc
        obtain ⟨hx, ci', hci', hy⟩ := deficitScan_coords p ri rest s c hc
        exact ⟨hx, ci', List.mem_cons_of_mem _ hci', hy⟩
      · intro c hc
        rcases List.mem_append.mp hc with hl | hr
        · split at hl
          · rw [List.mem_singleton] at hl
            rw [hl]
            exact ⟨rfl, ci, List.mem_cons_self _ _, rfl⟩
          · cases hl
        · obtain ⟨hx, ci', hci', hy⟩ := deficitScan_coords p ri rest _ c hr
          exact ⟨hx, ci', List.mem_cons_of_mem _ hci', hy⟩

theorem tryTreasureAssign_success (p : Params) (rec : SearchState → Bool × SearchState)
    (hash : Int) (lt : Coordinate) (escoords : List Coordinate) (Q : SearchState → Prop)
    (hrec : ∀ s', (rec s').1 = false → (rec s').2 = s')
    (hrecS : ∀ t t', rec t = (true, t') → WFState t → WFState t' ∧ DiffPres t t' ∧ Q t') :
    ∀ (is : List Nat) (sat : Bool) (s : SearchState), escoords.Nodup →
    (∀ c ∈ escoords, getTile s.diagram c.x c.y = EMPTY_SPACE) → WFState s →
    ∀ (sF : SearchState),
    tryTreasureAssign p rec hash lt escoords is sat s = .success sF →
    WFState sF ∧ DiffPres s sF ∧ Q sF
  | [], sat, s, _, _, _, sF, hres => by
    rw [tryTreasureAssign] at hres
    cases hres
  | i :: is, sat, s, hnd, hemp, hWF, sF, hres => by
    rw [tryTreasureAssign] at hres
    split at hres
    · dsimp only at hres
      split at hres
      next s3 heq =>
        injection hres with h2
        obtain ⟨hprWF, hprD⟩ := placeAllButOne_diff p escoords 0 i s hnd hemp hWF
        have h3 := hrecS _ s3 heq hprWF
        have hD2 : DiffPres (placeAllButOne p escoords 0 i s).2
            { (placeAllButOne p escoords 0 i s).2 with
              handledT := (placeAllButOne p escoords 0 i s).2.handledT ++ [hash],
              roomLTs := (placeAllButOne p escoords 0 i s).2.roomLTs ++ [lt] } :=
          ⟨fun _ _ => rfl, fun _ _ => rfl⟩
        have hD : DiffPres s s3 :=
          DiffPres_trans s _ s3 (DiffPres_trans s _ _ hprD hD2) h3.2.1
        exact h2 ▸ ⟨h3.1, hD, h3.2.2⟩
      next s3 heq =>
        have h3 : s3 = { (placeAllButOne p escoords 0 i s).2 with
            handledT := (placeAllButOne p escoords 0 i s).2.handledT ++ [hash],
            roomLTs := (placeAllButOne p escoords 0 i s).2.roomLTs ++ [lt] } := by
          have hr := hrec _ (by rw [heq])
          rw [heq] at hr
          exact hr
        have h4 : ({ diagram := s3.diagram, curRow := s3.curRow, curCol := s3.curCol,
                     handledT := s3.handledT.dropLast, handledM := s3.handledM,
                     roomLTs := s3.roomLTs.dropLast } : SearchState) =
            (placeAllButOne p escoords 0 i s).2 := by
          rw [h3]
          simp [List.dropLast_concat]
        rw [h4, placeAllButOne_undo p escoords 0 i s hnd hemp] at hres
        exact tryTreasureAssign_success p rec hash lt escoords Q hrec hrecS is true s
          hnd hemp hWF sF hres
    · rw [placeAllButOne_undo p escoords 0 i s hnd hemp] at hres
      exact tryTreasureAssign_success p rec hash lt escoords Q hrec hrecS is sat s
        hnd hemp hWF sF hres

theorem tryMonsterAssign_success (p : Params) (rec : SearchState → Bool × SearchState)
    (hash : Int) (escoords : List Coordinate) (Q : SearchState → Prop)
    (hrec : ∀ s', (rec s').1 = false → (rec s').2 = s')
    (hrecS : ∀ t t', rec t = (true, t') → WFState t → WFState t' ∧ DiffPres t t' ∧ Q t') :
    ∀ (is : List Nat) (sat : Bool) (s : SearchState), escoords.Nodup →
    (∀ c ∈ escoords, getTile s.diagram c.x c.y = EMPTY_SPACE) → WFState s →
    ∀ (sF : SearchState),
    tryMonsterAssign p rec hash escoords is sat s = .success sF →
    WFState sF ∧ DiffPres s sF ∧ Q sF
  | [], sat, s, _, _, _, sF, hres => by
    rw [tryMonsterAssign] at hres
    cases hres
  | i :: is, sat, s, hnd, hemp, hWF, sF, hres => by
    rw [tryMonsterAssign] at hres
    split at hres
    · dsimp only at hres
      split at hres
      next s3 heq =>
        injection hres with h2
        obtain ⟨hprWF, hprD⟩ := placeAllButOne_diff p escoords 0 i s hnd hemp hWF
        have h3 := hrecS _ s3 heq hprWF
        have hD2 : DiffPres (placeAllButOne p escoords 0 i s).2
            { (placeAllButOne p escoords 0 i s).2 with
              handledM := (placeAllButOne p escoords 0 i s).2.handledM ++ [hash] } :=
          ⟨fun _ _ => rfl, fun _ _ => rfl⟩
        have hD : DiffPres s s3 :=
          DiffPres_trans s _ s3 (DiffPres_trans s _ _ hprD hD2) h3.2.1
        exact h2 ▸ ⟨h3.1, hD, h3.2.2⟩
      next s3 heq =>
        have h3 : s3 = { (placeAllButOne p escoords 0 i s).2 with
            handledM := (placeAllButOne p escoords 0 i s).2.handledM ++ [hash] } := by
          have hr := hrec _ (by rw [heq])
          rw [heq] at hr
          exact hr
        have h4 : ({ diagram := s3.diagram, curRow := s3.curRow, curCol := s3.curCol,
                     handledT := s3.handledT, handledM := s3.handledM.dropLast,
                     roomLTs := s3.roomLTs } : SearchState) =
            (placeAllButOne p escoords 0 i s).2 := by
          rw [h3]
          simp [List.dropLast_concat]
        rw [h4, placeAllButOne_undo p escoords 0 i s hnd hemp] at hres
        exact tryMonsterAssign_success p rec hash escoords Q hrec hrecS is true s
          hnd hemp hWF sF hres
    · rw [placeAllButOne_undo p escoords 0 i s hnd hemp] at hres
      exact tryMonsterAssign_success p rec hash escoords Q hrec hrecS is sat s
        hnd hemp hWF sF hres

theorem tryTreasureRooms_success (p : Params) (rec : SearchState → Bool × SearchState)
    (hash : Int) (Q : SearchState → Prop)
    (hrec : ∀ s', (rec s').1 = false → (rec s').2 = s')
    (hrecS : ∀ t t', rec t = (true, t') → WFState t → WFState t' ∧ DiffPres t t' ∧ Q t') :
    ∀ (lts : List Coordinate) (sat : Bool) (s : SearchState), WFState s →
    ∀ (sF : SearchState), tryTreasureRooms p rec hash lts sat s = .success sF →
    WFState sF ∧ DiffPres s sF ∧ Q sF
  | [], sat, s, _, sF, hres => by
    rw [tryTreasureRooms] at hres
    cases hres
  | lt :: lts, sat, s, hWF, sF, hres => by
    rw [tryTreasureRooms] at hres
    dsimp only at hres
    split at hres
    · exact tryTreasureRooms_success p rec hash Q hrec hrecS lts sat s hWF sF hres
    · split at hres
      · exact tryTreasureRooms_success p rec hash Q hrec hrecS lts sat s hWF sF hres
      · split at hres
        · exact tryTreasureRooms_success p rec hash Q hrec hrecS lts sat s hWF sF hres
        · split at hres
          · cases hres
          · split at hres
            next sH heq =>
              injection hres with h2
              have h3 := tryTreasureAssign_success p rec hash lt
                ((getTRoomOuterTileCoords lt.x lt.y).filter fun c =>
                  getTile s.diagram c.x c.y == EMPTY_SPACE)
                Q hrec hrecS _ sat s
                ((getTRoomOuterTileCoords_nodup lt.x lt.y).filter _)
                (fun c hc => mem_filter_empty s.diagram _ c hc) hWF sH heq
              exact h2 ▸ h3
            next sH heq => cases hres
            next sat1 s1 heq =>
              have h1 : s1 = s :=
                tryTreasureAssign_frame p rec hash lt
                  ((getTRoomOuterTileCoords lt.x lt.y).filter fun c =>
                    getTile s.diagram c.x c.y == EMPTY_SPACE)
                  hrec _ sat s
                  ((getTRoomOuterTileCoords_nodup lt.x lt.y).filter _)
                  (fun c hc => mem_filter_empty s.diagram _ c hc) sat1 s1 heq
              rw [← h1]
              exact tryTreasureRooms_success p rec hash Q hrec hrecS lts sat1 s1
                (by rw [h1]; exact hWF) sF hres

theorem treasurePhase_success (p : Params) (rec : SearchState → Bool × SearchState)
    (Q : SearchState → Prop)
    (hrec : ∀ s', (rec s').1 = false → (rec s').2 = s')
    (hrecS : ∀ t t', rec t = (true, t') → WFState t → WFState t' ∧ DiffPres t t' ∧ Q t') :
    ∀ (ts : List Coordinate) (s : SearchState), WFState s →
    ∀ (sF : SearchState), treasurePhase p rec ts s = .success sF →
    WFState sF ∧ DiffPres s sF ∧ Q sF
  | [], s, _, sF, hres => by
    rw [treasurePhase] at hres
    cases hres
  | c :: rest, s, hWF, sF, hres => by
    rw [treasurePhase] at hres
    split at hres
    · exact treasurePhase_success p rec Q hrec hrecS rest s hWF sF hres
    · split at hres
      next sH heq =>
        injection hres with h2
        have h3 := tryTreasureRooms_success p rec (getHashId c.x c.y) Q hrec hrecS
          (getTRoomLTCoords c.x c.y) false s hWF sH heq
        exact h2 ▸ h3
      next sH heq => cases hres
      next sat1 s1 heq =>
        have h1 : s1 = s :=
          tryTreasureRooms_frame p rec (getHashId c.x c.y) hrec
            (getTRoomLTCoords c.x c.y) false s sat1 s1 heq
        split at hres
        · rw [← h1]
          exact treasurePhase_success p rec Q hrec hrecS rest s1
            (by rw [h1]; exact hWF) sF hres
        · cases hres

theorem monsterPhase_success (p : Params) (rec : SearchState → Bool × SearchState)
    (Q : SearchState → Prop)
    (hrec : ∀ s', (rec s').1 = false → (rec s').2 = s')
    (hrecS : ∀ t t', rec t = (true, t') → WFState t → WFState t' ∧ DiffPres t t' ∧ Q t') :
    ∀ (ms : List Coordinate) (s : SearchState), WFState s →
    ∀ (sF : SearchState), monsterPhase p rec ms s = .success sF →
    WFState sF ∧ DiffPres s sF ∧ Q sF
  | [], s, _, sF, hres => by
    rw [monsterPhase] at hres
    cases hres
  | c :: rest, s, hWF, sF, hres => by
    rw [monsterPhase] at hres
    split at hres
    · exact monsterPhase_success p rec Q hrec hrecS rest s hWF sF hres
    · dsimp only at hres
      split at hres
      next heq => cases hres
      next nwalls heq =>
        split at hres
        · cases hres
        · split at hres
          next sH heq2 =>
            injection hres with h2
            have h3 := tryMonsterAssign_success p rec (getHashId c.x c.y)
              ((get4DirectionCoords c.x c.y).filter fun q =>
                getTile s.diagram q.x q.y == EMPTY_SPACE)
              Q hrec hrecS _ false s
              ((get4DirectionCoords_nodup c.x c.y).filter _)
              (fun q hq => mem_filter_empty s.diagram _ q hq) hWF sH heq2
            exact h2 ▸ h3
          next sH heq2 => cases hres
          next sat1 s1 heq2 =>
            have h1 : s1 = s :=
              tryMonsterAssign_frame p rec (getHashId c.x c.y)
                ((get4DirectionCoords c.x c.y).filter fun q =>
                  getTile s.diagram q.x q.y == EMPTY_SPACE)
                hrec _ false s
                ((get4DirectionCoords_nodup c.x c.y).filter _)
                (fun q hq => mem_filter_empty s.diagram _ q hq) sat1 s1 heq2
            split at hres
            · rw [← h1]
              exact monsterPhase_success p rec Q hrec hrecS rest s1
                (by rw [h1]; exact hWF) sF hres
            · cases hres

theorem tryCombos_success (p : Params) (rec : SearchState → Bool × SearchState)
    (avail : List Coordinate) (Q : SearchState → Prop)
    (hrec : ∀ s', (rec s').1 = false → (rec s').2 = s')
    (hrecS : ∀ t t', rec t = (true, t') → WFState t → WFState t' ∧ DiffPres t t' ∧ Q t')
    (hnd : avail.Nodup) :
    ∀ (combos : List (List Nat)) (sat : Bool) (s : SearchState),
    (∀ c ∈ avail, getTile s.diagram c.x c.y = EMPTY_SPACE ∧
      (1 ≤ c.x ∧ c.x ≤ 8) ∧ (1 ≤ c.y ∧ c.y ≤ 8)) →
    (∀ combo ∈ combos, combo.Nodup ∧ ∀ a ∈ combo, a < avail.length) →
    WFState s → ∀ (sF : SearchState),
    tryCombos p rec avail combos sat s = .success sF →
    WFState sF ∧ DiffPres s sF ∧ Q sF
  | [], sat, s, _, _, _, sF, hres => by
    rw [tryCombos] at hres
    cases hres
  | combo :: rest, sat, s, hprop, hcombos, hWF, sF, hres => by
    rw [tryCombos] at hres
    have hcnd := (hcombos combo (List.mem_cons_self _ _)).1
    have hcbd := (hcombos combo (List.mem_cons_self _ _)).2
    have hmnd : (combo.map fun i => avail.getD i ⟨0, 0⟩).Nodup :=
      map_getD_nodup avail combo hnd hcnd hcbd
    have hmprop : ∀ c ∈ combo.map fun i => avail.getD i ⟨0, 0⟩,
        getTile s.diagram c.x c.y = EMPTY_SPACE ∧
        (1 ≤ c.x ∧ c.x ≤ 8) ∧ (1 ≤ c.y ∧ c.y ≤ 8) := by
      intro c hcmem
      obtain ⟨i, hi, rfl⟩ := List.mem_map.mp hcmem
      exact hprop _ (getD_mem_of_lt avail i _ (hcbd i hi))
    have hundo : undoPlaced (combo.map fun i => avail.getD i ⟨0, 0⟩)
        (placeCombo avail combo s) = s := by
      rw [placeCombo_eq]
      exact undoPlaced_placeSeq _ s hmnd (fun c hcmem => (hmprop c hcmem).1)
    split at hres
    · split at hres
      next sH heq =>
        injection hres with h2
        have hps := placeSeq_diff (combo.map fun i => avail.getD i ⟨0, 0⟩) s hmnd hmprop hWF
        rw [← placeCombo_eq] at hps
        have h3 := hrecS _ sH heq hps.1
        exact h2 ▸ ⟨h3.1, DiffPres_trans s _ sH hps.2 h3.2.1, h3.2.2⟩
      next s2 heq =>
        have h2 : s2 = placeCombo avail combo s := by
          have hr := hrec _ (by rw [heq])
          rw [heq] at hr
          exact hr
        rw [h2, hundo] at hres
        exact tryCombos_success p rec avail Q hrec hrecS hnd rest true s hprop
          (fun cb hcb => hcombos cb (List.mem_cons_of_mem _ hcb)) hWF sF hres
    · rw [hundo] at hres
      exact tryCombos_success p rec avail Q hrec hrecS hnd rest sat s hprop
        (fun cb hcb => hcombos cb (List.mem_cons_of_mem _ hcb)) hWF sF hres

theorem deficitPhase_success (p : Params) (rec : SearchState → Bool × SearchState)
    (Q : SearchState → Prop)
    (hrec : ∀ s', (rec s').1 = false → (rec s').2 = s')
    (hrecS : ∀ t t', rec t = (true, t') → WFState t → WFState t' ∧ DiffPres t t' ∧ Q t') :
    ∀ (rows : List Nat) (s : SearchState), (∀ r ∈ rows, r < 8) → WFState s →
    ∀ (sF : SearchState), deficitPhase p rec rows s = (true, sF) →
    WFState sF ∧ DiffPres s sF ∧ Q sF
  | [], s, _, _, sF, hres => by
    rw [deficitPhase] at hres
    injection hres with h1 h2
    exact Bool.noConfusion h1
  | ri :: rest, s, hrows, hWF, sF, hres => by
    rw [deficitPhase] at hres
    dsimp only at hres
    split at hres
    · exact deficitPhase_success p rec Q hrec hrecS rest s
        (fun r hr => hrows r (List.mem_cons_of_mem _ hr)) hWF sF hres
    · obtain ⟨hsc1, hsc2, hsc3⟩ := deficitScan_spec p ri (List.range s.curCol.length) s
      split at hres
      · injection hres with h1 h2
        exact Bool.noConfusion h1
      · have hnr : ((List.range s.curCol.length).map fun ci : Nat => (ci : Int) + 1).Nodup :=
          (List.nodup_range _).map (fun a b hab => by omega)
        have hand : (deficitScan p ri (List.range s.curCol.length) s).1.Nodup :=
          List.Nodup.of_map _ (hsc3.nodup hnr)
        have hri : ri < 8 := hrows ri (List.mem_cons_self _ _)
        have hprop : ∀ c ∈ (deficitScan p ri (List.range s.curCol.length) s).1,
            getTile (deficitScan p ri (List.range s.curCol.length) s).2.diagram c.x c.y =
              EMPTY_SPACE ∧ (1 ≤ c.x ∧ c.x ≤ 8) ∧ (1 ≤ c.y ∧ c.y ≤ 8) := by
          intro c hcm
          obtain ⟨hx, ci', hci', hy⟩ := deficitScan_coords p ri (List.range s.curCol.length) s c hcm
          rw [List.mem_range] at hci'
          have hclen : s.curCol.length = 8 := hWF.2.1
          refine ⟨?_, by omega, by omega⟩
          rw [hsc1]
          exact hsc2 c hcm
        have hWF2 : WFState (deficitScan p ri (List.range s.curCol.length) s).2 := by
          rw [hsc1]
          exact hWF
        split at hres
        next sH heq =>
          injection hres with h1 h2
          have h3 := tryCombos_success p rec _ Q hrec hrecS hand _ false _ hprop
            (fun cb hcb => ⟨getCombinations_mem_nodup _ _ cb hcb,
              (getCombinations_mem _ _ cb hcb).2.2⟩) hWF2 sH heq
          rw [hsc1] at h3
          exact h2 ▸ h3
        next sH heq =>
          injection hres with h1 h2
          exact Bool.noConfusion h1
        next sat1 s1 heq =>
          have h1 : s1 = (deficitScan p ri (List.range s.curCol.length) s).2 :=
            tryCombos_frame p rec _ hrec hand _ false _
              (fun c hcm => (hprop c hcm).1)
              (fun cb hcb => ⟨getCombinations_mem_nodup _ _ cb hcb,
                (getCombinations_mem _ _ cb hcb).2.2⟩) sat1 s1 heq
          split at hres
          · have h1s : s1 = s := by rw [h1, hsc1]
            rw [← h1s]
            exact deficitPhase_success p rec Q hrec hrecS rest s1
              (fun r hr => hrows r (List.mem_cons_of_mem _ hr))
              (by rw [h1s]; exact hWF) sF hres
          · injection hres with h1' h2'
            exact Bool.noConfusion h1'

theorem zip_all_eq (l r : List Int)
    (h : ((l.zip r).all fun q => q.1 == q.2) = true) :
    ∀ i, i < l.length → i < r.length → l.getD i 0 = r.getD i 0 := by
  induction l generalizing r with
  | nil =>
    intro i hi _
    simp at hi
  | cons a t ih =>
    cases r with
    | nil =>
      intro i _ hi
      simp at hi
    | cons b u =>
      rw [List.zip_cons_cons, List.all_cons, Bool.and_eq_true] at h
      intro i hi1 hi2
      cases i with
      | zero => simpa using beq_iff_eq.mp h.1
      | succ n =>
        rw [List.getD_cons_succ, List.getD_cons_succ]
        exact ih u h.2 n (by simpa using hi1) (by simpa using hi2)

theorem isSatisfiedProjections_spec (cr cc rp cp : List Int)
    (h : isSatisfiedProjections cr cc rp cp = true) :
    cr.length = rp.length ∧ cc.length = cp.length ∧
    (∀ i < cr.length, cr.getD i 0 = rp.getD i 0) ∧
    (∀ i < cc.length, cc.getD i 0 = cp.getD i 0) := by
  unfold isSatisfiedProjections at h
  split at h
  next hcond =>
    rw [Bool.and_eq_true] at h
    refine ⟨hcond.1, hcond.2, ?_, ?_⟩
    · intro i hi
      exact zip_all_eq cr rp h.1 i hi (by omega)
    · intro i hi
      exact zip_all_eq cc cp h.2 i hi (by omega)
  next => cases h

theorem dfs_success (p : Params) :
    ∀ (fuel step : Nat) (s : SearchState) (s' : SearchState),
    dfs p fuel step s = (true, s') → WFState s →
    WFState s' ∧ DiffPres s s' ∧
      (isSatisfiedProjections s'.curRow s'.curCol p.rowProj p.colProj = true ∧
       isSolved p.treasures p.monsters s'.diagram = true)
  | 0, step, s, s', hres, _ => by
    rw [dfs_zero] at hres
    injection hres with h1 h2
    exact Bool.noConfusion h1
  | fuel + 1, step, s, s', hres, hWF => by
    have hrec : ∀ t, (dfs p fuel (step + 1) t).1 = false →
        (dfs p fuel (step + 1) t).2 = t := by
      intro t h1
      apply dfs_frame p fuel (step + 1) t
      rw [← h1]
    have hrecS : ∀ t t', dfs p fuel (step + 1) t = (true, t') → WFState t →
        WFState t' ∧ DiffPres t t' ∧
          (isSatisfiedProjections t'.curRow t'.curCol p.rowProj p.colProj = true ∧
           isSolved p.treasures p.monsters t'.diagram = true) :=
      fun t t' ht hw => dfs_success p fuel (step + 1) t t' ht hw
    by_cases hsat : isSatisfiedProjections s.curRow s.curCol p.rowProj p.colProj = true
    · rw [dfs_satisfied p fuel step s hsat] at hres
      injection hres with h1 h2
      cases h2
      exact ⟨hWF, DiffPres_refl s, hsat, h1⟩
    · rw [dfs_not_satisfied p fuel step s (Bool.eq_false_iff.mpr hsat)] at hres
      split at hres
      next sF heq =>
        injection hres with h1 h2
        exact h2 ▸ treasurePhase_success p _ _ hrec hrecS p.treasures s hWF sF heq
      next sF heq =>
        injection hres with h1 h2
        exact Bool.noConfusion h1
      next sat1 s1 heq =>
        have hs1 : s1 = s := treasurePhase_frame p _ hrec p.treasures s sat1 s1 heq
        split at hres
        · injection hres with h1 h2
          exact Bool.noConfusion h1
        · split at hres
          next sF heq2 =>
            injection hres with h1 h2
            have h3 := monsterPhase_success p _ _ hrec hrecS p.monsters s1
              (by rw [hs1]; exact hWF) sF heq2
            rw [hs1] at h3
            exact h2 ▸ h3
          next sF heq2 =>
            injection hres with h1 h2
            exact Bool.noConfusion h1
          next sat2 s2 heq2 =>
            have hs2 : s2 = s1 := monsterPhase_frame p _ hrec p.monsters s1 sat2 s2 heq2
            split at hres
            · injection hres with h1 h2
              exact Bool.noConfusion h1
            · have hw2 : WFState s2 := by rw [hs2, hs1]; exact hWF
              have hrows : ∀ r ∈ List.range s2.curRow.length, r < 8 := by
                intro r hr
                rw [List.mem_range] at hr
                have hl8 : s2.curRow.length = 8 := hw2.1
                omega
              have h3 := deficitPhase_success p _ _ hrec hrecS
                (List.range s2.curRow.length) s2 hrows hw2 s' hres
              rw [hs2, hs1] at h3
              exact h3

/-- C9: `getCombinations m n` agrees with the specification model: it is empty
for `m > n`, has exactly `C(n, m)` members for `m ≤ n`, contains no duplicate
combination, and every member is a strictly increasing, duplicate-free list of
`m` indices below `n`, enumerated in the include-current-index-first
depth-first order of the model. -/
theorem c9_combinations (m n : Nat) :
    getCombinations m n = specCombinations m n ∧
    (n < m → getCombinations m n = []) ∧
    (m ≤ n → (getCombinations m n).length = Nat.choose n m) ∧
    (getCombinations m n).Nodup ∧
    ∀ l ∈ getCombinations m n,
      l.length = m ∧ List.Chain' (· < ·) l ∧ (∀ a ∈ l, a < n) ∧ l.Nodup :=
  ⟨getCombinations_eq_specCombinations m n,
   fun h => getCombinations_of_gt m n h,
   fun h => getCombinations_length m n h,
   getCombinations_nodup m n,
   fun l hl => ⟨(getCombinations_mem m n l hl).1, (getCombinations_mem m n l hl).2.1,
     (getCombinations_mem m n l hl).2.2, getCombinations_mem_nodup m n l hl⟩⟩

/-- Witness for C9 at `m = 2, n = 4` and the degenerate `m = 3, n = 2`. -/
theorem c9_combinations_witness :
    getCombinations 2 4 = [[0, 1], [0, 2], [0, 3], [1, 2], [1, 3], [2, 3]] ∧
    (getCombinations 2 4).length = Nat.choose 4 2 ∧
    getCombinations 3 2 = [] :=
  ⟨by decide, (c9_combinations 2 4).2.2.1 (by decide), (c9_combinations 3 2).2.1 (by decide)⟩

/-- C5 (amended): on every return path on which the recursion reports failure,
all tentative mutations have been exactly reverted: the returned state is the
entry state bit for bit.  On a success path the source returns immediately and
skips the undo loops, so the mutated state escapes (see the counterexample). -/
theorem c5_mutations_reverted (p : Params) (fuel step : Nat) (s s' : SearchState)
    (h : dfs p fuel step s = (false, s')) : s' = s :=
  dfs_frame p fuel step s s' h

/-- Witness for C5: the unsolvable two-cell puzzle returns with the entry
state intact. -/
theorem c5_mutations_reverted_witness :
    (dfs pTwoCellsUnsat 2 0 sTwoCells).2 = sTwoCells :=
  c5_mutations_reverted pTwoCellsUnsat 2 0 sTwoCells
    (dfs pTwoCellsUnsat 2 0 sTwoCells).2 (Prod.ext (by decide) rfl)

/-- Counterexample to C5 as stated: on the solvable two-cell puzzle the search
returns true and the returned grid retains the committed wall, so mutations
are not reverted regardless of outcome. -/
theorem c5_counterexample :
    (dfs pTwoCells 3 0 sTwoCells).1 = true ∧
    (dfs pTwoCells 3 0 sTwoCells).2.diagram ≠ sTwoCells.diagram := by
  decide

/-- C1 (amended): when `dfs` returns true, every row's and column's wall count
of the final non-border region equals the target projection plus the surplus
the initial grid's pre-existing walls contribute (the counters start at zero
regardless of those walls); for wall-free initial grids this is exact
equality with the targets. -/
theorem c1_exact_projections (p : Params) (fuel step : Nat) (s s' : SearchState)
    (hWF : WFState s) (hrun : dfs p fuel step s = (true, s')) :
    ∀ i, i < 8 →
      (rowWalls s'.diagram i : Int) =
        p.rowProj.getD i 0 + ((rowWalls s.diagram i : Int) - s.curRow.getD i 0) ∧
      (colWalls s'.diagram i : Int) =
        p.colProj.getD i 0 + ((colWalls s.diagram i : Int) - s.curCol.getD i 0) := by
  obtain ⟨hWF', hD, hsat, hsolved⟩ := dfs_success p fuel step s s' hrun hWF
  obtain ⟨hl1, hl2, hcr, hcc⟩ := isSatisfiedProjections_spec _ _ _ _ hsat
  intro i hi
  have hr := hD.1 i hi
  have hc := hD.2 i hi
  have hcri : s'.curRow.getD i 0 = p.rowProj.getD i 0 := hcr i (by rw [hWF'.1]; exact hi)
  have hcci : s'.curCol.getD i 0 = p.colProj.getD i 0 := hcc i (by rw [hWF'.2.1]; exact hi)
  rw [hcri] at hr
  rw [hcci] at hc
  constructor
  · omega
  · omega

/-- Witness for C1 on the solvable wall-free-target puzzle. -/
theorem c1_exact_projections_witness :
    WFState sTwoCells ∧
    ((rowWalls (dfs pTwoCells 3 0 sTwoCells).2.diagram 0 : Int) =
      pTwoCells.rowProj.getD 0 0 +
        ((rowWalls sTwoCells.diagram 0 : Int) - sTwoCells.curRow.getD 0 0) ∧
     (colWalls (dfs pTwoCells 3 0 sTwoCells).2.diagram 0 : Int) =
      pTwoCells.colProj.getD 0 0 +
        ((colWalls sTwoCells.diagram 0 : Int) - sTwoCells.curCol.getD 0 0)) :=
  ⟨by decide, c1_exact_projections pTwoCells 3 0 sTwoCells
    (dfs pTwoCells 3 0 sTwoCells).2 (by decide) (Prod.ext (by decide) rfl) 0 (by decide)⟩

/-- Counterexample to C1 as stated: the monster-pocket puzzle solves with
all-zero targets, yet row 0 of the final grid holds seven walls that were
already present in the input. -/
theorem c1_counterexample :
    (dfs pMonsterPocket 1 0 sMonsterPocket).1 = true ∧
    pMonsterPocket.rowProj.getD 0 0 = 0 ∧
    rowWalls (dfs pMonsterPocket 1 0 sMonsterPocket).2.diagram 0 = 7 := by
  decide

theorem isTilePlacable_le (a b : Int) (cr cc rp cp : List Int)
    (h : isTilePlacable a b cr cc rp cp = true) :
    cr.getD a.toNat 0 + 1 ≤ rp.getD a.toNat 0 ∧
    cc.getD b.toNat 0 + 1 ≤ cp.getD b.toNat 0 := by
  unfold isTilePlacable at h
  split at h
  · simp only [Bool.and_eq_true, decide_eq_true_eq] at h
    exact h
  · cases h

theorem placeWall_le (p : Params) (c : Coordinate) (t : SearchState)
    (hp : isTilePlacable (c.x - 1) (c.y - 1) t.curRow t.curCol p.rowProj p.colProj = true)
    (hrowt : ∀ i < 8, t.curRow.getD i 0 ≤ p.rowProj.getD i 0)
    (hcolt : ∀ i < 8, t.curCol.getD i 0 ≤ p.colProj.getD i 0) :
    (∀ i < 8, (placeWall c t).curRow.getD i 0 ≤ p.rowProj.getD i 0) ∧
    (∀ i < 8, (placeWall c t).curCol.getD i 0 ≤ p.colProj.getD i 0) := by
  obtain ⟨hle1, hle2⟩ := isTilePlacable_le _ _ _ _ _ _ hp
  obtain ⟨hb1, hb2, hb3, hb4⟩ := isTilePlacable_bounds _ _ _ _ _ _ hp
  constructor
  · intro i hi
    show (incProj t.curRow (c.x - 1)).getD i 0 ≤ _
    rw [incProj_pos _ _ hb1]
    by_cases hidx : (c.x - 1).toNat = i
    · by_cases hlen : (c.x - 1).toNat < t.curRow.length
      · rw [← hidx, getD_set_self _ _ _ _ hlen]
        exact hidx ▸ hle1
      · rw [List.set_eq_of_length_le (Nat.le_of_not_lt hlen)]
        exact hrowt i hi
    · rw [getD_set_ne _ _ _ _ _ hidx]
      exact hrowt i hi
  · intro i hi
    show (incProj t.curCol (c.y - 1)).getD i 0 ≤ _
    rw [incProj_pos _ _ hb3]
    by_cases hidx : (c.y - 1).toNat = i
    · by_cases hlen : (c.y - 1).toNat < t.curCol.length
      · rw [← hidx, getD_set_self _ _ _ _ hlen]
        exact hidx ▸ hle2
      · rw [List.set_eq_of_length_le (Nat.le_of_not_lt hlen)]
        exact hcolt i hi
    · rw [getD_set_ne _ _ _ _ _ hidx]
      exact hcolt i hi

theorem unplaceWall_le (p : Params) (c : Coordinate) (t : SearchState)
    (hrowt : ∀ i < 8, t.curRow.getD i 0 ≤ p.rowProj.getD i 0)
    (hcolt : ∀ i < 8, t.curCol.getD i 0 ≤ p.colProj.getD i 0) :
    (∀ i < 8, (unplaceWall c t).curRow.getD i 0 ≤ p.rowProj.getD i 0) ∧
    (∀ i < 8, (unplaceWall c t).curCol.getD i 0 ≤ p.colProj.getD i 0) := by
  constructor
  · intro i hi
    show (decProj t.curRow (c.x - 1)).getD i 0 ≤ _
    by_cases hneg : 0 ≤ c.x - 1
    · rw [decProj_pos _ _ hneg]
      by_cases hidx : (c.x - 1).toNat = i
      · by_cases hlen : (c.x - 1).toNat < t.curRow.length
        · rw [← hidx, getD_set_self _ _ _ _ hlen]
          have := hidx ▸ hrowt i hi
          omega
        · rw [List.set_eq_of_length_le (Nat.le_of_not_lt hlen)]
          exact hrowt i hi
      · rw [getD_set_ne _ _ _ _ _ hidx]
        exact hrowt i hi
    · rw [decProj_neg _ _ hneg]
      exact hrowt i hi
  · intro i hi
    show (decProj t.curCol (c.y - 1)).getD i 0 ≤ _
    by_cases hneg : 0 ≤ c.y - 1
    · rw [decProj_pos _ _ hneg]
      by_cases hidx : (c.y - 1).toNat = i
      · by_cases hlen : (c.y - 1).toNat < t.curCol.length
        · rw [← hidx, getD_set_self _ _ _ _ hlen]
          have := hidx ▸ hcolt i hi
          omega
        · rw [List.set_eq_of_length_le (Nat.le_of_not_lt hlen)]
          exact hcolt i hi
      · rw [getD_set_ne _ _ _ _ _ hidx]
        exact hcolt i hi
    · rw [decProj_neg _ _ hneg]
      exact hcolt i hi

/-- C6 (amended): the counters are tied to the walls the search itself places,
not to the total wall counts: across any `dfs` call each line's difference
between its true non-border wall count and its counter is preserved (the main
entry zeroes the counters even over initial walls, so the claimed equality
fails on such grids — see the counterexample), while the original
never-exceeds-target bound stands: counters at or below their targets on
entry are at or below their targets on return (and exactly equal to them on a
successful return), every projection-guarded wall commit keeps each counter
at or below its target, and every undo only decrements. -/
theorem c6_counter_invariant (p : Params) (fuel step : Nat) (s : SearchState)
    (b : Bool) (s' : SearchState) (hWF : WFState s)
    (hrow : ∀ i < 8, s.curRow.getD i 0 ≤ p.rowProj.getD i 0)
    (hcol : ∀ i < 8, s.curCol.getD i 0 ≤ p.colProj.getD i 0)
    (hrun : dfs p fuel step s = (b, s')) :
    DiffPres s s' ∧
    ((∀ i < 8, s'.curRow.getD i 0 ≤ p.rowProj.getD i 0) ∧
     (∀ i < 8, s'.curCol.getD i 0 ≤ p.colProj.getD i 0)) ∧
    (∀ (c : Coordinate) (t : SearchState),
      isTilePlacable (c.x - 1) (c.y - 1) t.curRow t.curCol p.rowProj p.colProj = true →
      (∀ i < 8, t.curRow.getD i 0 ≤ p.rowProj.getD i 0) →
      (∀ i < 8, t.curCol.getD i 0 ≤ p.colProj.getD i 0) →
      (∀ i < 8, (placeWall c t).curRow.getD i 0 ≤ p.rowProj.getD i 0) ∧
      (∀ i < 8, (placeWall c t).curCol.getD i 0 ≤ p.colProj.getD i 0)) ∧
    (∀ (c : Coordinate) (t : SearchState),
      (∀ i < 8, t.curRow.getD i 0 ≤ p.rowProj.getD i 0) →
      (∀ i < 8, t.curCol.getD i 0 ≤ p.colProj.getD i 0) →
      (∀ i < 8, (unplaceWall c t).curRow.getD i 0 ≤ p.rowProj.getD i 0) ∧
      (∀ i < 8, (unplaceWall c t).curCol.getD i 0 ≤ p.colProj.getD i 0)) := by
  refine ⟨?_, ?_, fun c t hp h1 h2 => placeWall_le p c t hp h1 h2,
    fun c t h1 h2 => unplaceWall_le p c t h1 h2⟩
  · cases b
    · have hfr := dfs_frame p fuel step s s' hrun
      rw [hfr]
      exact DiffPres_refl s
    · exact (dfs_success p fuel step s s' hrun hWF).2.1
  · cases b
    · have hfr := dfs_frame p fuel step s s' hrun
      rw [hfr]
      exact ⟨hrow, hcol⟩
    · obtain ⟨hWF', hD, hsat, hsolved⟩ := dfs_success p fuel step s s' hrun hWF
      obtain ⟨hl1, hl2, hcr, hcc⟩ := isSatisfiedProjections_spec _ _ _ _ hsat
      constructor
      · intro i hi
        rw [hcr i (by rw [hWF'.1]; exact hi)]
      · intro i hi
        rw [hcc i (by rw [hWF'.2.1]; exact hi)]

/-- Witness for C6 on the solvable two-cell puzzle: its entry counters are
zero, below the targets, and the invariant is obtained by applying the
theorem at that input. -/
theorem c6_counter_invariant_witness :
    WFState sTwoCells ∧
    (∀ i < 8, sTwoCells.curRow.getD i 0 ≤ pTwoCells.rowProj.getD i 0) ∧
    (∀ i < 8, sTwoCells.curCol.getD i 0 ≤ pTwoCells.colProj.getD i 0) ∧
    DiffPres sTwoCells (dfs pTwoCells 3 0 sTwoCells).2 ∧
    (∀ i < 8, (dfs pTwoCells 3 0 sTwoCells).2.curRow.getD i 0 ≤
      pTwoCells.rowProj.getD i 0) ∧
    (∀ i < 8, (dfs pTwoCells 3 0 sTwoCells).2.curCol.getD i 0 ≤
      pTwoCells.colProj.getD i 0) :=
  have h := c6_counter_invariant pTwoCells 3 0 sTwoCells
    (dfs pTwoCells 3 0 sTwoCells).1 (dfs pTwoCells 3 0 sTwoCells).2
    (by decide) (by decide) (by decide) rfl
  ⟨by decide, by decide, by decide, h.1, h.2.1.1, h.2.1.2⟩

/-- Counterexample to C6 as stated: on an input grid holding one wall the main
entry starts the counters at zero, so on entry to the very first `dfs` call
the row-0 counter is 0 while the row-0 non-border wall count is 1. -/
theorem c6_counterexample :
    (initialState rawOneWall).curRow.getD 0 0 = 0 ∧
    rowWalls (initialState rawOneWall).diagram 0 = 1 := by
  decide

end DD
